import Mathlib

set_option autoImplicit false

/-!
Shallow embedding of the KVStorage repository (`src/dict/Bucket.h`,
`src/dict/Dictionary.h`, `src/InMemoryKVStorage.h`) and proofs about the
claims of its specification.

Conventions of the embedding:
* A bucket chain (`Bucket*` linked list) is a `List (Key × Value)`;
  node identity never matters inside `Dictionary` because every comparison
  in the source dereferences the `shared_ptr` and compares by value.
* The bucket array is a `List (List (Key × Value))`; its length is the
  `_dictionarySize` field of the source.
* `std::size_t _rehashIndex` with sentinel `-1` is an `Option Nat`.
* `std::optional` is `Option`; a call of `std::optional::value()` on an
  empty optional throws `std::bad_optional_access`, which we model with
  `Except Unit`, `.error ()` being the throw.
* Machine integers are modelled by `Nat`; none of the counters involved can
  overflow 64 bits on the inputs any theorem below touches.
-/

namespace KVS

/-- First-match lookup in a bucket chain: mirrors the
`while (tmp != nullptr && *(tmp->key) != key) tmp = tmp->next;` walks of
`Dictionary::_get` (src/dict/Dictionary.h lines 114-129). -/
def chainFind {Key Value : Type} [DecidableEq Key] (k : Key) :
    List (Key × Value) → Option Value
  | [] => none
  | (k', v) :: rest => if k' = k then some v else chainFind k rest

/-- In-place value replacement at the first node whose key equals `k`;
`none` when no node matches.  Mirrors the update branch of
`Dictionary::_set` (src/dict/Dictionary.h lines 94-102): the node keeps its
stored key object and only `pBucket->value` is replaced. -/
def chainReplace {Key Value : Type} [DecidableEq Key] (k : Key) (v : Value) :
    List (Key × Value) → Option (List (Key × Value))
  | [] => none
  | (k', v') :: rest =>
    if k' = k then some ((k', v) :: rest)
    else (chainReplace k v rest).map ((k', v') :: ·)

/-- Unlink-and-delete of the first node whose key equals `k`; `none` when no
node matches.  Mirrors `Dictionary::_remove` (src/dict/Dictionary.h lines
134-158). -/
def chainRemove {Key Value : Type} [DecidableEq Key] (k : Key) :
    List (Key × Value) → Option (List (Key × Value))
  | [] => none
  | (k', v') :: rest =>
    if k' = k then some rest
    else (chainRemove k rest).map ((k', v') :: ·)

/-- State of a `Dictionary<Key, Value, Hash>` instance.
`dict`/`alt` are the `_dictionary` and `_alternativeDictionary` bucket
arrays (`alt = []` plays the role of the null pointer, matching
`_alternativeDictionarySize = 0`), `used` is `_dictionaryUsed`, and
`rehashIndex` is `_rehashIndex` (with `none` for the `-1` sentinel). -/
structure DictState (Key Value : Type) where
  dict : List (List (Key × Value))
  used : Nat
  alt : List (List (Key × Value))
  rehashIndex : Option Nat
deriving DecidableEq

/-- `BASIC_DICTIONARY_SIZE` (src/dict/Dictionary.h line 14). -/
def BASIC_DICTIONARY_SIZE : Nat := 8

/-- `DICTIONARY_REHASH_BUCKET_COUNT` (src/dict/Dictionary.h line 15). -/
def DICTIONARY_REHASH_BUCKET_COUNT : Nat := 32

/-- Numerator of `DICTIONARY_LOW_LIMIT_REHASH = 0.01f` over `2 ^ 30`:
the float literal `0.01f` is exactly `10737418 / 2 ^ 30`
(= 0.00999999977648258209228515625). -/
def LOW_LIMIT_NUM : Nat := 10737418

/-- Denominator of the exact value of `0.01f`. -/
def LOW_LIMIT_DEN : Nat := 2 ^ 30

/-- Numerator of `DICTIONARY_HIGH_LIMIT_REHASH = 1.2f` over `2 ^ 23`:
the float literal `1.2f` is exactly `10066330 / 2 ^ 23`
(= 1.2000000476837158203125). -/
def HIGH_LIMIT_NUM : Nat := 10066330

/-- Denominator of the exact value of `1.2f`. -/
def HIGH_LIMIT_DEN : Nat := 2 ^ 23

/-- `fillFactor() < DICTIONARY_LOW_LIMIT_REHASH`, written by
cross-multiplication.  `fillFactor()` is the double division
`used / size`; for every capacity below `2 ^ 29` the rounding of that
division cannot move the quotient across the constant, so the
cross-multiplied comparison is exact on all states considered here. -/
def fillFactorLtLow {Key Value : Type} (d : DictState Key Value) : Bool :=
  d.used * LOW_LIMIT_DEN < LOW_LIMIT_NUM * d.dict.length

/-- `fillFactor() > DICTIONARY_HIGH_LIMIT_REHASH` by cross-multiplication
(same exactness remark as `fillFactorLtLow`). -/
def fillFactorGtHigh {Key Value : Type} (d : DictState Key Value) : Bool :=
  d.used * HIGH_LIMIT_DEN > HIGH_LIMIT_NUM * d.dict.length

/-- `Dictionary::isNeedRehash` (src/dict/Dictionary.h lines 165-168). -/
def isNeedRehash {Key Value : Type} (d : DictState Key Value) : Bool :=
  decide (d.dict.length > BASIC_DICTIONARY_SIZE) && (d.used != 0) &&
    (fillFactorLtLow d || fillFactorGtHigh d)

/-- `Dictionary::isRehashing` (src/dict/Dictionary.h lines 173-175). -/
def isRehashing {Key Value : Type} (d : DictState Key Value) : Bool :=
  d.rehashIndex.isSome

/-- `Dictionary::prepareRehash` (src/dict/Dictionary.h lines 180-189). -/
def prepareRehash {Key Value : Type} (d : DictState Key Value) :
    DictState Key Value :=
  let altSize := if fillFactorLtLow d then d.dict.length / 2 else d.dict.length * 2
  { d with alt := List.replicate altSize [], rehashIndex := some 0 }

/-- Clears (sets to `[]`) `n` consecutive buckets starting at index `r`:
the freeing loop body of `Dictionary::rehash`. -/
def clearBucketsFrom {Key Value : Type} (l : List (List (Key × Value))) (r : Nat) :
    Nat → List (List (Key × Value))
  | 0 => l
  | n + 1 => clearBucketsFrom (l.set r []) (r + 1) n

/-- `Dictionary::rehash` (src/dict/Dictionary.h lines 194-220): walks up to
`DICTIONARY_REHASH_BUCKET_COUNT` primary buckets from `_rehashIndex`,
deleting every chain node it finds (nothing is migrated), and when the
cursor reaches the primary capacity it discards the primary array and
promotes the alternative array. -/
def rehashStep {Key Value : Type} (d : DictState Key Value) : DictState Key Value :=
  match d.rehashIndex with
  | none => d
  | some r =>
    if r < d.dict.length then
      let stop := min (r + DICTIONARY_REHASH_BUCKET_COUNT) d.dict.length
      let dict' := clearBucketsFrom d.dict r (stop - r)
      if stop = d.dict.length then
        { dict := d.alt, used := d.used, alt := [], rehashIndex := none }
      else
        { d with dict := dict', rehashIndex := some stop }
    else
      if r = d.dict.length then
        { dict := d.alt, used := d.used, alt := [], rehashIndex := none }
      else d

/-- `Dictionary::preCommandActions` (src/dict/Dictionary.h lines 226-236). -/
def preCommandActions {Key Value : Type} (d : DictState Key Value) :
    DictState Key Value :=
  if isRehashing d then rehashStep d
  else if isNeedRehash d then rehashStep (prepareRehash d)
  else d

/-- One bucket update of `Dictionary::_set` (src/dict/Dictionary.h lines
80-109).  Returns the new chain and whether a node was created (the
`++_dictionaryUsed` paths).  `primaryBucket` is the chain of `_dictionary`
at the same index: the prepend branch of the source reads
`tmp->next = _dictionary[index]` (line 105) even when the target array is
the alternative one, and the embedding reproduces that. -/
def bucketSet {Key Value : Type} [DecidableEq Key] (k : Key) (v : Value)
    (bucket primaryBucket : List (Key × Value)) : List (Key × Value) × Bool :=
  match bucket with
  | [] => ([(k, v)], true)
  | _ :: _ =>
    match chainReplace k v bucket with
    | some bucket' => (bucket', false)
    | none => ((k, v) :: primaryBucket, true)

/-- `Dictionary::_set` over a designated bucket array (`pDictionary`),
also carrying the primary array for the line-105 read. -/
def dictSetRaw {Key Value : Type} [DecidableEq Key] (hash : Key → Nat)
    (pD primary : List (List (Key × Value))) (used : Nat) (k : Key) (v : Value) :
    List (List (Key × Value)) × Nat :=
  let i := hash k % pD.length
  let (b', isNew) := bucketSet k v (pD.getD i []) (primary.getD i [])
  (pD.set i b', if isNew then used + 1 else used)

/-- `Dictionary::_get` over a designated bucket array. -/
def dictGetRaw {Key Value : Type} [DecidableEq Key] (hash : Key → Nat)
    (pD : List (List (Key × Value))) (k : Key) : Option Value :=
  chainFind k (pD.getD (hash k % pD.length) [])

/-- `Dictionary::_remove` over a designated bucket array; returns whether a
node was deleted together with the new array and `_dictionaryUsed`. -/
def dictRemoveRaw {Key Value : Type} [DecidableEq Key] (hash : Key → Nat)
    (pD : List (List (Key × Value))) (used : Nat) (k : Key) :
    Bool × List (List (Key × Value)) × Nat :=
  let i := hash k % pD.length
  match chainRemove k (pD.getD i []) with
  | none => (false, pD, used)
  | some b' => (true, pD.set i b', used - 1)

/-- `Dictionary::Dictionary(size)` (src/dict/Dictionary.h lines 247-252). -/
def dictMk {Key Value : Type} (size : Nat) : DictState Key Value :=
  { dict := List.replicate size [], used := 0, alt := [], rehashIndex := none }

/-- `Dictionary::set` (src/dict/Dictionary.h lines 283-293).  In the
rehashing branch the source calls `_remove(*key, _dictionary, _dictionarySize)`
after `std::move(key)` was consumed by `_set`, dereferencing a moved-from
(null) `shared_ptr` — undefined behaviour in C++; the embedding adopts the
evident intent of removing that key from the primary array. -/
def dictSet {Key Value : Type} [DecidableEq Key] (hash : Key → Nat)
    (d : DictState Key Value) (k : Key) (v : Value) : DictState Key Value :=
  let d := preCommandActions d
  if isRehashing d then
    let (alt', used') := dictSetRaw hash d.alt d.dict d.used k v
    let (_, dict', used'') := dictRemoveRaw hash d.dict used' k
    { dict := dict', used := used'', alt := alt', rehashIndex := d.rehashIndex }
  else
    let (dict', used') := dictSetRaw hash d.dict d.dict d.used k v
    { d with dict := dict', used := used' }

/-- `Dictionary::remove` (src/dict/Dictionary.h lines 302-310): tries the
alternative array first while rehashing, falling through to the primary. -/
def dictRemove {Key Value : Type} [DecidableEq Key] (hash : Key → Nat)
    (d : DictState Key Value) (k : Key) : Bool × DictState Key Value :=
  let d := preCommandActions d
  if isRehashing d then
    let (found, alt', used') := dictRemoveRaw hash d.alt d.used k
    if found then (true, { d with alt := alt', used := used' })
    else
      let (found2, dict', used2) := dictRemoveRaw hash d.dict d.used k
      (found2, { d with dict := dict', used := used2 })
  else
    let (found, dict', used') := dictRemoveRaw hash d.dict d.used k
    (found, { d with dict := dict', used := used' })

/-- `Dictionary::get` (src/dict/Dictionary.h lines 318-330).  `get` is not
const in the source: `preCommandActions` may mutate the table, so the new
state is returned alongside the value. -/
def dictGet {Key Value : Type} [DecidableEq Key] (hash : Key → Nat)
    (d : DictState Key Value) (k : Key) : Option Value × DictState Key Value :=
  let d := preCommandActions d
  if isRehashing d then
    match dictGetRaw hash d.alt k with
    | some v => (some v, d)
    | none => (dictGetRaw hash d.dict k, d)
  else (dictGetRaw hash d.dict k, d)

/-! ## The storage engine (`src/InMemoryKVStorage.h`)

The engine is instantiated as in the repository's tests
(`InMemoryKVStorage<std::string, std::string, int, MockClock>`): keys and
values are strings, TTLs and clock readings are `Nat`.  Both internal
`Dictionary` instances are default-constructed at `BASIC_DICTIONARY_SIZE`.
`std::hash<std::string>` is kept abstract as a `hash : String → Nat`
parameter of every operation.

`_setSortedTtlPtr` is a `std::set<std::pair<shared_ptr<Key>, shared_ptr<Ttl>>>`
with the default comparator, so its elements are ordered by the *addresses*
of the shared pointers, not by expiration time; every `set` call allocates
fresh pointers, hence every insertion adds a new element at an
address-determined position.  The embedding keeps the elements as a list in
allocation order (the realization of an allocator handing out increasing
addresses), so `begin()` is the list head. -/

/-- State of an `InMemoryKVStorage<std::string, std::string, int, Clock>`;
field names follow the private members of the source class, and `clock` is
the value the injected clock's `now()` currently returns. -/
structure StorageState where
  keyValueDictionary : DictState String String
  keyTtlDictionary : DictState String Nat
  setSortedKeyPtr : List String
  setSortedTtlPtr : List (String × Nat)
  clock : Nat
deriving DecidableEq

/-- `std::set` insertion under the `ComparatorPtrKey` value comparator:
keeps the list strictly sorted and rejects an element equivalent to a
present one (keeping the originally stored key object, which compares equal
by value). -/
def sortedInsert (k : String) : List String → List String
  | [] => [k]
  | x :: xs =>
    if k < x then k :: x :: xs
    else if x < k then x :: sortedInsert k xs
    else x :: xs

/-- `InMemoryKVStorage::isExist` (src/InMemoryKVStorage.h lines 52-55).
`Dictionary::get` is mutating, so the updated storage state is returned. -/
def isExist (hash : String → Nat) (s : StorageState) (k : String) :
    Bool × StorageState :=
  let (v, d') := dictGet hash s.keyValueDictionary k
  (v.isSome, { s with keyValueDictionary := d' })

/-- `InMemoryKVStorage::isExpired` (src/InMemoryKVStorage.h lines 63-70):
a key is expired iff it has an expiration entry strictly below `now()`. -/
def isExpired (hash : String → Nat) (s : StorageState) (k : String) :
    Bool × StorageState :=
  let (t, d') := dictGet hash s.keyTtlDictionary k
  (match t with
   | some tv => decide (tv < s.clock)
   | none => false,
   { s with keyTtlDictionary := d' })

/-- `InMemoryKVStorage::set` (src/InMemoryKVStorage.h lines 102-114):
stores the value, inserts the key into the key-ordered set, and — only when
`ttl ≠ 0` — stores `ttl + now()` in the expiration index and inserts a fresh
(key, expiration) element into the expiration-ordered set. -/
def storageSet (hash : String → Nat) (s : StorageState) (k v : String)
    (ttl : Nat) : StorageState :=
  let kv' := dictSet hash s.keyValueDictionary k v
  let keys' := sortedInsert k s.setSortedKeyPtr
  if ttl ≠ 0 then
    let exp := ttl + s.clock
    let ttlD' := dictSet hash s.keyTtlDictionary k exp
    { keyValueDictionary := kv', keyTtlDictionary := ttlD',
      setSortedKeyPtr := keys',
      setSortedTtlPtr := s.setSortedTtlPtr ++ [(k, exp)],
      clock := s.clock }
  else
    { s with keyValueDictionary := kv', setSortedKeyPtr := keys' }

/-- `InMemoryKVStorage::remove` (src/InMemoryKVStorage.h lines 122-152).
Note the source reads `oTtl` from `_keyValueDictionary` (line 127), not
from the TTL dictionary, so the cleanup branch runs whenever the key
exists; the branch erases the TTL-dictionary entry and the *first*
expiration-set element whose key equals `k` (the `std::find_if` at lines
138-144). -/
def storageRemove (hash : String → Nat) (s : StorageState) (k : String) :
    Bool × StorageState :=
  let (exists1, s) := isExist hash s k
  if !exists1 then (false, s)
  else
    let (oTtl, kvd) := dictGet hash s.keyValueDictionary k
    let s := { s with keyValueDictionary := kvd }
    let (_, kvd2) := dictRemove hash s.keyValueDictionary k
    let keys' := s.setSortedKeyPtr.erase k
    let s := { s with keyValueDictionary := kvd2, setSortedKeyPtr := keys' }
    if oTtl.isSome then
      let (_, ttld) := dictRemove hash s.keyTtlDictionary k
      let cells' := s.setSortedTtlPtr.eraseP (fun c => c.1 == k)
      (true, { s with keyTtlDictionary := ttld, setSortedTtlPtr := cells' })
    else (true, s)

/-- `InMemoryKVStorage::get` (src/InMemoryKVStorage.h lines 160-165):
`nullopt` when the key is absent or expired, otherwise
`_keyValueDictionary.get(key).value()` — the `.value()` throw is the
`.error` case. -/
def storageGet (hash : String → Nat) (s : StorageState) (k : String) :
    Except Unit (Option String) × StorageState :=
  let (exists1, s1) := isExist hash s k
  if !exists1 then (.ok none, s1)
  else
    let (expired1, s2) := isExpired hash s1 k
    if expired1 then (.ok none, s2)
    else
      let (v, kvd) := dictGet hash s2.keyValueDictionary k
      let s3 := { s2 with keyValueDictionary := kvd }
      match v with
      | some vv => (.ok (some vv), s3)
      | none => (.error (), s3)

/-- The scan loop of `InMemoryKVStorage::getManySorted`
(src/InMemoryKVStorage.h lines 178-186): an expired key is skipped without
consuming the remaining count (`--i; continue;`), a live key contributes
`{**it, get(**it).value()}`. -/
def collectSorted (hash : String → Nat) :
    StorageState → List String → Nat →
    Except Unit (List (String × String)) × StorageState
  | s, [], _ => (.ok [], s)
  | s, _ :: _, 0 => (.ok [], s)
  | s, k :: ks, n + 1 =>
    let (expired1, s1) := isExpired hash s k
    if expired1 then collectSorted hash s1 ks (n + 1)
    else
      match storageGet hash s1 k with
      | (.ok (some v), s2) =>
        match collectSorted hash s2 ks n with
        | (.ok res, s3) => (.ok ((k, v) :: res), s3)
        | (.error e, s3) => (.error e, s3)
      | (.ok none, s2) => (.error (), s2)
      | (.error e, s2) => (.error e, s2)

/-- `InMemoryKVStorage::getManySorted` (src/InMemoryKVStorage.h lines
174-187): positions at `lower_bound(startKey)` in the key-ordered set and
collects up to `count` live entries. -/
def storageGetManySorted (hash : String → Nat) (s : StorageState)
    (startKey : String) (count : Nat) :
    Except Unit (List (String × String)) × StorageState :=
  collectSorted hash s
    (s.setSortedKeyPtr.dropWhile (fun x => decide (x < startKey))) count

/-- `InMemoryKVStorage::removeOneExpiredEntry` (src/InMemoryKVStorage.h
lines 196-205): inspects only `begin()` of the expiration-ordered set; if
that element's expiration is strictly past, reads the value
(`.value()` may throw), removes the key and returns the pair. -/
def storageRemoveOneExpiredEntry (hash : String → Nat) (s : StorageState) :
    Except Unit (Option (String × String)) × StorageState :=
  match s.setSortedTtlPtr with
  | [] => (.ok none, s)
  | (k, exp) :: _ =>
    if exp < s.clock then
      let (v, kvd) := dictGet hash s.keyValueDictionary k
      let s1 := { s with keyValueDictionary := kvd }
      match v with
      | none => (.error (), s1)
      | some vv =>
        let (_, s2) := storageRemove hash s1 k
        (.ok (some (k, vv)), s2)
    else (.ok none, s)

/-- Advancing the injected clock (`MockClock::advance` in the tests; the
spec only requires `now()` to be monotone non-decreasing). -/
def tickClock (s : StorageState) (n : Nat) : StorageState :=
  { s with clock := s.clock + n }

/-- `InMemoryKVStorage(Clock)` — the empty storage, with the clock
currently reading `clock0`. -/
def storageInit (clock0 : Nat) : StorageState :=
  { keyValueDictionary := dictMk BASIC_DICTIONARY_SIZE,
    keyTtlDictionary := dictMk BASIC_DICTIONARY_SIZE,
    setSortedKeyPtr := [], setSortedTtlPtr := [], clock := clock0 }

/-- One public storage operation (or a clock advance) as a state
transition. -/
inductive Step (hash : String → Nat) : StorageState → StorageState → Prop
  | set (s : StorageState) (k v : String) (ttl : Nat) :
      Step hash s (storageSet hash s k v ttl)
  | remove (s : StorageState) (k : String) :
      Step hash s (storageRemove hash s k).2
  | get (s : StorageState) (k : String) :
      Step hash s (storageGet hash s k).2
  | getManySorted (s : StorageState) (startKey : String) (count : Nat) :
      Step hash s (storageGetManySorted hash s startKey count).2
  | removeOneExpiredEntry (s : StorageState) :
      Step hash s (storageRemoveOneExpiredEntry hash s).2
  | tick (s : StorageState) (n : Nat) :
      Step hash s (tickClock s n)

/-- Storage states reachable from an empty storage by public operations
and clock advances. -/
inductive Reachable (hash : String → Nat) : StorageState → Prop
  | init (clock0 : Nat) : Reachable hash (storageInit clock0)
  | step {s t : StorageState} : Reachable hash s → Step hash s t →
      Reachable hash t

/-! ## Invariants and pure views -/

/-- Well-formedness of a `Dictionary` in its stable regime: the bucket
array has the base capacity `8` (both storage-level dictionaries are
default-constructed and, since `isNeedRehash` demands a capacity strictly
above `BASIC_DICTIONARY_SIZE`, they never leave it), no rehash is in
progress, and no bucket chain stores the same key twice. -/
def DictInv {Key Value : Type} (d : DictState Key Value) : Prop :=
  d.dict.length = 8 ∧ d.rehashIndex = none ∧
    ∀ b ∈ d.dict, (b.map Prod.fst).Nodup

/-- Pure view of the value index: the entry the primary bucket array of
`_keyValueDictionary` currently holds for `k`. -/
def lookupKV (hash : String → Nat) (s : StorageState) (k : String) :
    Option String :=
  dictGetRaw hash s.keyValueDictionary.dict k

/-- Pure view of the expiration index: the absolute expiration time the
primary bucket array of `_keyTtlDictionary` currently holds for `k`. -/
def lookupTtl (hash : String → Nat) (s : StorageState) (k : String) :
    Option Nat :=
  dictGetRaw hash s.keyTtlDictionary.dict k

/-- Pure counterpart of `isExpired`: the key has an expiration entry
strictly below the current clock. -/
def expiredPure (hash : String → Nat) (s : StorageState) (k : String) : Bool :=
  match lookupTtl hash s k with
  | some t => decide (t < s.clock)
  | none => false

/-- Number of elements of the expiration-ordered set whose key equals `k`
(several can accumulate, one per finite-TTL `set` call). -/
def cellsFor (s : StorageState) (k : String) : Nat :=
  s.setSortedTtlPtr.countP (fun c => c.1 == k)

/-- Storage-level invariant: both dictionaries are well formed, the
key-ordered set is strictly sorted, and it holds exactly the keys present
in the value index. -/
def SInv (hash : String → Nat) (s : StorageState) : Prop :=
  DictInv s.keyValueDictionary ∧ DictInv s.keyTtlDictionary ∧
    s.setSortedKeyPtr.Pairwise (· < ·) ∧
    ∀ k, k ∈ s.setSortedKeyPtr ↔ (lookupKV hash s k).isSome = true

/-- The specification's description of `getManySorted` (spec §4.2):
"starting from the first key ≥ `startKey` in lexicographic order, collects
up to `count` live (non-expired) entries, silently skipping any
encountered expired entries".  Written from the spec's words, to be
compared with `storageGetManySorted`. -/
def specScan (hash : String → Nat) (s : StorageState) (startKey : String)
    (count : Nat) : List (String × String) :=
  (((s.setSortedKeyPtr.dropWhile (fun x => decide (x < startKey))).filterMap
    (fun k =>
      if expiredPure hash s k then none
      else (lookupKV hash s k).map (fun v => (k, v)))).take count)

/-- A public operation (or clock advance) that is not a `set` or `remove`
of the key `k0` — the "until a subsequent Set/Remove on k" side condition
of the round-trip property. -/
inductive StepAvoiding (hash : String → Nat) (k0 : String) :
    StorageState → StorageState → Prop
  | set (s : StorageState) (k v : String) (ttl : Nat) (hk : k ≠ k0) :
      StepAvoiding hash k0 s (storageSet hash s k v ttl)
  | remove (s : StorageState) (k : String) (hk : k ≠ k0) :
      StepAvoiding hash k0 s (storageRemove hash s k).2
  | get (s : StorageState) (k : String) :
      StepAvoiding hash k0 s (storageGet hash s k).2
  | getManySorted (s : StorageState) (startKey : String) (count : Nat) :
      StepAvoiding hash k0 s (storageGetManySorted hash s startKey count).2
  | removeOneExpiredEntry (s : StorageState) :
      StepAvoiding hash k0 s (storageRemoveOneExpiredEntry hash s).2
  | tick (s : StorageState) (n : Nat) :
      StepAvoiding hash k0 s (tickClock s n)

/-- A concrete stand-in for `std::hash<std::string>` used in concrete
executions.  `Dictionary` is templated over its hash functor (the
repository's own tests instantiate it with a constant function,
`ConflictHash`), and none of the storage-level behaviour exercised below
depends on the hash, so any function is a faithful instantiation. -/
def exHash : String → Nat := fun _ => 0

/-- A 20-key insertion run against `Dictionary(16)` with the identity hash
over `Nat` keys: after the twentieth insertion the fill factor 20/16
exceeds `DICTIONARY_HIGH_LIMIT_REHASH`, so the next operation triggers a
growth rehash. -/
def overfullDict : DictState Nat Nat :=
  (List.range 20).foldl (fun d i => dictSet (fun x => x) d i i) (dictMk 16)

/-! ## Chain lemmas -/
theorem chainFind_eq_none_iff {Key Value : Type} [DecidableEq Key] (k : Key) :
    ∀ c : List (Key × Value), chainFind k c = none ↔ k ∉ c.map Prod.fst := by
  intro c
  induction c with
  | nil => simp [chainFind]
  | cons p rest ih =>
    obtain ⟨k', v'⟩ := p
    by_cases h : k' = k
    · subst h
      simp [chainFind]
    · have h2 : ¬ k = k' := fun hh => h hh.symm
      simp [chainFind, h, ih, h2]

theorem chainReplace_eq_none_iff {Key Value : Type} [DecidableEq Key]
    (k : Key) (v : Value) :
    ∀ c : List (Key × Value),
      chainReplace k v c = none ↔ chainFind k c = none := by
  intro c
  induction c with
  | nil => simp [chainReplace, chainFind]
  | cons p rest ih =>
    obtain ⟨k', v'⟩ := p
    by_cases h : k' = k <;> simp [chainReplace, chainFind, h, ih]

theorem chainFind_chainReplace_self {Key Value : Type} [DecidableEq Key]
    (k : Key) (v : Value) :
    ∀ c c' : List (Key × Value),
      chainReplace k v c = some c' → chainFind k c' = some v := by
  intro c
  induction c with
  | nil =>
    intro c' hc'
    simp [chainReplace] at hc'
  | cons p rest ih =>
    obtain ⟨k', v'⟩ := p
    intro c' hc'
    by_cases h : k' = k
    · simp only [chainReplace, if_pos h] at hc'
      obtain rfl := Option.some.inj hc'
      simp [chainFind, h]
    · simp only [chainReplace, if_neg h, Option.map_eq_some'] at hc'
      obtain ⟨c'', hc'', rfl⟩ := hc'
      simp [chainFind, h, ih c'' hc'']

theorem chainFind_chainReplace_ne {Key Value : Type} [DecidableEq Key]
    (k k2 : Key) (v : Value) (hne : k2 ≠ k) :
    ∀ c c' : List (Key × Value),
      chainReplace k v c = some c' → chainFind k2 c' = chainFind k2 c := by
  intro c
  induction c with
  | nil =>
    intro c' hc'
    simp [chainReplace] at hc'
  | cons p rest ih =>
    obtain ⟨k', v'⟩ := p
    intro c' hc'
    by_cases h : k' = k
    · simp only [chainReplace, if_pos h] at hc'
      obtain rfl := Option.some.inj hc'
      have hk2 : ¬ k' = k2 := by
        rw [h]
        exact fun hh => hne hh.symm
      simp [chainFind, hk2]
    · simp only [chainReplace, if_neg h, Option.map_eq_some'] at hc'
      obtain ⟨c'', hc'', rfl⟩ := hc'
      by_cases h2 : k' = k2 <;> simp [chainFind, h2, ih c'' hc'']

theorem map_fst_chainReplace {Key Value : Type} [DecidableEq Key]
    (k : Key) (v : Value) :
    ∀ c c' : List (Key × Value),
      chainReplace k v c = some c' → c'.map Prod.fst = c.map Prod.fst := by
  intro c
  induction c with
  | nil =>
    intro c' hc'
    simp [chainReplace] at hc'
  | cons p rest ih =>
    obtain ⟨k', v'⟩ := p
    intro c' hc'
    by_cases h : k' = k
    · simp only [chainReplace, if_pos h] at hc'
      obtain rfl := Option.some.inj hc'
      simp
    · simp only [chainReplace, if_neg h, Option.map_eq_some'] at hc'
      obtain ⟨c'', hc'', rfl⟩ := hc'
      simp [ih c'' hc'']

theorem chainRemove_eq_none_iff {Key Value : Type} [DecidableEq Key] (k : Key) :
    ∀ c : List (Key × Value),
      chainRemove k c = none ↔ chainFind k c = none := by
  intro c
  induction c with
  | nil => simp [chainRemove, chainFind]
  | cons p rest ih =>
    obtain ⟨k', v'⟩ := p
    by_cases h : k' = k <;> simp [chainRemove, chainFind, h, ih]

theorem map_fst_chainRemove_sublist {Key Value : Type} [DecidableEq Key]
    (k : Key) :
    ∀ c c' : List (Key × Value),
      chainRemove k c = some c' →
        List.Sublist (c'.map Prod.fst) (c.map Prod.fst) := by
  intro c
  induction c with
  | nil =>
    intro c' hc'
    simp [chainRemove] at hc'
  | cons p rest ih =>
    obtain ⟨k', v'⟩ := p
    intro c' hc'
    by_cases h : k' = k
    · simp only [chainRemove, if_pos h] at hc'
      obtain rfl := Option.some.inj hc'
      exact List.sublist_cons_self _ _
    · simp only [chainRemove, if_neg h, Option.map_eq_some'] at hc'
      obtain ⟨c'', hc'', rfl⟩ := hc'
      simpa using List.Sublist.cons₂ k' (ih c'' hc'')

theorem chainFind_chainRemove_self {Key Value : Type} [DecidableEq Key]
    (k : Key) :
    ∀ c c' : List (Key × Value), (c.map Prod.fst).Nodup →
      chainRemove k c = some c' → chainFind k c' = none := by
  intro c
  induction c with
  | nil =>
    intro c' _ hc'
    simp [chainRemove] at hc'
  | cons p rest ih =>
    obtain ⟨k', v'⟩ := p
    intro c' hnd hc'
    simp only [List.map_cons, List.nodup_cons] at hnd
    by_cases h : k' = k
    · simp only [chainRemove, if_pos h] at hc'
      obtain rfl := Option.some.inj hc'
      rw [chainFind_eq_none_iff]
      rw [h] at hnd
      exact hnd.1
    · simp only [chainRemove, if_neg h, Option.map_eq_some'] at hc'
      obtain ⟨c'', hc'', rfl⟩ := hc'
      simp [chainFind, h, ih c'' hnd.2 hc'']

theorem chainFind_chainRemove_ne {Key Value : Type} [DecidableEq Key]
    (k k2 : Key) (hne : k2 ≠ k) :
    ∀ c c' : List (Key × Value),
      chainRemove k c = some c' → chainFind k2 c' = chainFind k2 c := by
  intro c
  induction c with
  | nil =>
    intro c' hc'
    simp [chainRemove] at hc'
  | cons p rest ih =>
    obtain ⟨k', v'⟩ := p
    intro c' hc'
    by_cases h : k' = k
    · simp only [chainRemove, if_pos h] at hc'
      obtain rfl := Option.some.inj hc'
      have hk2 : ¬ k' = k2 := by
        rw [h]
        exact fun hh => hne hh.symm
      simp [chainFind, hk2]
    · simp only [chainRemove, if_neg h, Option.map_eq_some'] at hc'
      obtain ⟨c'', hc'', rfl⟩ := hc'
      by_cases h2 : k' = k2 <;> simp [chainFind, h2, ih c'' hc'']

theorem bucketSet_self_fst {Key Value : Type} [DecidableEq Key]
    (k : Key) (v : Value) (b : List (Key × Value)) :
    (bucketSet k v b b).1 =
      match chainReplace k v b with
      | some c' => c'
      | none => (k, v) :: b := by
  cases b with
  | nil => simp [bucketSet, chainReplace]
  | cons p rest =>
    simp only [bucketSet]
    cases chainReplace k v (p :: rest) <;> rfl
/-! ## Dictionary lemmas in the stable regime -/

theorem mem_set_elem {α : Type} (a x : α) :
    ∀ (l : List α) (i : Nat), x ∈ l.set i a → x = a ∨ x ∈ l := by
  intro l
  induction l with
  | nil => intro i hx; simp at hx
  | cons y ys ih =>
    intro i hx
    cases i with
    | zero =>
      rw [List.set_cons_zero] at hx
      rcases List.mem_cons.mp hx with h | h
      · exact Or.inl h
      · exact Or.inr (List.mem_cons_of_mem _ h)
    | succ n =>
      rw [List.set_cons_succ] at hx
      rcases List.mem_cons.mp hx with h | h
      · exact Or.inr (h ▸ List.mem_cons_self _ _)
      · rcases ih n h with h' | h'
        · exact Or.inl h'
        · exact Or.inr (List.mem_cons_of_mem _ h')

theorem isNeedRehash_of_base {Key Value : Type} (d : DictState Key Value)
    (hlen : d.dict.length ≤ BASIC_DICTIONARY_SIZE) : isNeedRehash d = false := by
  have : ¬ d.dict.length > BASIC_DICTIONARY_SIZE := not_lt.mpr hlen
  simp [isNeedRehash, this]

theorem preCommandActions_of_inv {Key Value : Type} (d : DictState Key Value)
    (hd : DictInv d) : preCommandActions d = d := by
  obtain ⟨hlen, hri, _⟩ := hd
  have h1 : isRehashing d = false := by simp [isRehashing, hri]
  have h2 : isNeedRehash d = false :=
    isNeedRehash_of_base d (by rw [hlen]; rfl)
  simp [preCommandActions, h1, h2]

theorem dictGet_of_inv {Key Value : Type} [DecidableEq Key]
    (hash : Key → Nat) (d : DictState Key Value) (k : Key) (hd : DictInv d) :
    dictGet hash d k = (dictGetRaw hash d.dict k, d) := by
  have h1 : isRehashing d = false := by simp [isRehashing, hd.2.1]
  rw [dictGet, preCommandActions_of_inv d hd]
  simp [h1]

theorem dictSet_of_inv {Key Value : Type} [DecidableEq Key]
    (hash : Key → Nat) (d : DictState Key Value) (k : Key) (v : Value)
    (hd : DictInv d) :
    dictSet hash d k v =
      { d with dict := (dictSetRaw hash d.dict d.dict d.used k v).1,
               used := (dictSetRaw hash d.dict d.dict d.used k v).2 } := by
  have h1 : isRehashing d = false := by simp [isRehashing, hd.2.1]
  rw [dictSet, preCommandActions_of_inv d hd]
  simp [h1]

theorem dictRemove_of_inv {Key Value : Type} [DecidableEq Key]
    (hash : Key → Nat) (d : DictState Key Value) (k : Key) (hd : DictInv d) :
    dictRemove hash d k =
      ((dictRemoveRaw hash d.dict d.used k).1,
        { d with dict := (dictRemoveRaw hash d.dict d.used k).2.1,
                 used := (dictRemoveRaw hash d.dict d.used k).2.2 }) := by
  have h1 : isRehashing d = false := by simp [isRehashing, hd.2.1]
  rw [dictRemove, preCommandActions_of_inv d hd]
  simp [h1]

theorem length_dictSetRaw {Key Value : Type} [DecidableEq Key]
    (hash : Key → Nat) (pD primary : List (List (Key × Value))) (u : Nat)
    (k : Key) (v : Value) :
    (dictSetRaw hash pD primary u k v).1.length = pD.length := by
  simp [dictSetRaw]

theorem length_dictRemoveRaw {Key Value : Type} [DecidableEq Key]
    (hash : Key → Nat) (pD : List (List (Key × Value))) (u : Nat) (k : Key) :
    (dictRemoveRaw hash pD u k).2.1.length = pD.length := by
  rw [dictRemoveRaw]
  cases chainRemove k (pD.getD (hash k % pD.length) []) <;> simp

theorem getD_set_self {α : Type} (l : List α) (i : Nat) (a fb : α)
    (hi : i < l.length) : (l.set i a).getD i fb = a := by
  rw [List.getD_eq_getElem?_getD, List.getElem?_set_self hi]
  rfl

theorem getD_set_ne {α : Type} (l : List α) (i j : Nat) (a fb : α)
    (hij : i ≠ j) : (l.set i a).getD j fb = l.getD j fb := by
  rw [List.getD_eq_getElem?_getD, List.getElem?_set_ne hij,
    ← List.getD_eq_getElem?_getD]

theorem getD_mem_or_default {α : Type} (l : List α) (i : Nat) (fb : α) :
    l.getD i fb ∈ l ∨ l.getD i fb = fb := by
  by_cases hi : i < l.length
  · left
    rw [List.getD_eq_getElem?_getD, List.getElem?_eq_getElem hi]
    exact List.getElem_mem _
  · right
    rw [List.getD_eq_getElem?_getD, List.getElem?_eq_none (le_of_not_lt hi)]
    rfl

theorem dictGetRaw_setRaw_self {Key Value : Type} [DecidableEq Key]
    (hash : Key → Nat) (pD : List (List (Key × Value))) (u : Nat)
    (k : Key) (v : Value) (hpos : 0 < pD.length) :
    dictGetRaw hash (dictSetRaw hash pD pD u k v).1 k = some v := by
  have hi : hash k % pD.length < pD.length := Nat.mod_lt _ hpos
  rw [dictGetRaw, length_dictSetRaw]
  show chainFind k (((pD.set (hash k % pD.length)
      (bucketSet k v (pD.getD (hash k % pD.length) [])
        (pD.getD (hash k % pD.length) []) ).1)).getD (hash k % pD.length) []) =
    some v
  rw [getD_set_self _ _ _ _ hi, bucketSet_self_fst]
  cases hrep : chainReplace k v (pD.getD (hash k % pD.length) []) with
  | none => simp [chainFind]
  | some c' => exact chainFind_chainReplace_self k v _ c' hrep

theorem dictGetRaw_setRaw_ne {Key Value : Type} [DecidableEq Key]
    (hash : Key → Nat) (pD : List (List (Key × Value))) (u : Nat)
    (k k2 : Key) (v : Value) (hpos : 0 < pD.length) (hne : k2 ≠ k) :
    dictGetRaw hash (dictSetRaw hash pD pD u k v).1 k2 = dictGetRaw hash pD k2 := by
  rw [dictGetRaw, dictGetRaw, length_dictSetRaw]
  show chainFind k2 (((pD.set (hash k % pD.length)
      (bucketSet k v (pD.getD (hash k % pD.length) [])
        (pD.getD (hash k % pD.length) []) ).1)).getD (hash k2 % pD.length) []) = _
  by_cases hij : hash k % pD.length = hash k2 % pD.length
  · rw [← hij]
    have hi : hash k % pD.length < pD.length := Nat.mod_lt _ hpos
    rw [getD_set_self _ _ _ _ hi, bucketSet_self_fst]
    have hkk2 : ¬ k = k2 := fun hh => hne hh.symm
    cases hrep : chainReplace k v (pD.getD (hash k % pD.length) []) with
    | none => simp [chainFind, hkk2]
    | some c' => exact chainFind_chainReplace_ne k k2 v hne _ c' hrep
  · rw [getD_set_ne _ _ _ _ _ hij]

theorem dictGetRaw_removeRaw_self {Key Value : Type} [DecidableEq Key]
    (hash : Key → Nat) (pD : List (List (Key × Value))) (u : Nat) (k : Key)
    (hpos : 0 < pD.length)
    (hnd : ∀ b ∈ pD, (b.map Prod.fst).Nodup) :
    dictGetRaw hash (dictRemoveRaw hash pD u k).2.1 k = none := by
  have hi : hash k % pD.length < pD.length := Nat.mod_lt _ hpos
  have hmem : pD.getD (hash k % pD.length) [] ∈ pD := by
    rw [List.getD_eq_getElem?_getD, List.getElem?_eq_getElem hi]
    exact List.getElem_mem _
  rw [dictRemoveRaw]
  cases hrem : chainRemove k (pD.getD (hash k % pD.length) []) with
  | none =>
    rw [dictGetRaw]
    exact (chainRemove_eq_none_iff k _).mp hrem
  | some b' =>
    rw [dictGetRaw]
    simp only [List.length_set]
    rw [getD_set_self _ _ _ _ hi]
    exact chainFind_chainRemove_self k _ b' (hnd _ hmem) hrem

theorem dictGetRaw_removeRaw_ne {Key Value : Type} [DecidableEq Key]
    (hash : Key → Nat) (pD : List (List (Key × Value))) (u : Nat)
    (k k2 : Key) (hpos : 0 < pD.length) (hne : k2 ≠ k) :
    dictGetRaw hash (dictRemoveRaw hash pD u k).2.1 k2 = dictGetRaw hash pD k2 := by
  rw [dictRemoveRaw]
  cases hrem : chainRemove k (pD.getD (hash k % pD.length) []) with
  | none => rfl
  | some b' =>
    rw [dictGetRaw, dictGetRaw]
    simp only [List.length_set]
    by_cases hij : hash k % pD.length = hash k2 % pD.length
    · rw [← hij]
      have hi : hash k % pD.length < pD.length := Nat.mod_lt _ hpos
      rw [getD_set_self _ _ _ _ hi]
      exact chainFind_chainRemove_ne k k2 hne _ b' hrem
    · rw [getD_set_ne _ _ _ _ _ hij]

theorem dictRemoveRaw_fst {Key Value : Type} [DecidableEq Key]
    (hash : Key → Nat) (pD : List (List (Key × Value))) (u : Nat) (k : Key) :
    (dictRemoveRaw hash pD u k).1 = (dictGetRaw hash pD k).isSome := by
  rw [dictRemoveRaw, dictGetRaw]
  cases hrem : chainRemove k (pD.getD (hash k % pD.length) []) with
  | none =>
    rw [(chainRemove_eq_none_iff k _).mp hrem]
    rfl
  | some b' =>
    cases hfind : chainFind k (pD.getD (hash k % pD.length) []) with
    | none =>
      rw [← @chainRemove_eq_none_iff Key Value _ k] at hfind
      rw [hfind] at hrem
      cases hrem
    | some v => rfl

theorem nodup_dictSetRaw {Key Value : Type} [DecidableEq Key]
    (hash : Key → Nat) (pD : List (List (Key × Value))) (u : Nat)
    (k : Key) (v : Value)
    (hnd : ∀ b ∈ pD, (b.map Prod.fst).Nodup) :
    ∀ b ∈ (dictSetRaw hash pD pD u k v).1, (b.map Prod.fst).Nodup := by
  intro b hb
  simp only [dictSetRaw] at hb
  rcases mem_set_elem _ _ _ _ hb with rfl | hmem
  · rw [bucketSet_self_fst]
    have hb0 : ((pD.getD (hash k % pD.length) []).map Prod.fst).Nodup := by
      rcases getD_mem_or_default pD (hash k % pD.length) [] with h | h
      · exact hnd _ h
      · rw [h]; simp
    cases hrep : chainReplace k v (pD.getD (hash k % pD.length) []) with
    | some c' =>
      rw [map_fst_chainReplace k v _ c' hrep]
      exact hb0
    | none =>
      simp only [List.map_cons, List.nodup_cons]
      refine ⟨?_, hb0⟩
      rw [← chainFind_eq_none_iff, ← chainReplace_eq_none_iff k v]
      exact hrep
  · exact hnd _ hmem

theorem nodup_dictRemoveRaw {Key Value : Type} [DecidableEq Key]
    (hash : Key → Nat) (pD : List (List (Key × Value))) (u : Nat) (k : Key)
    (hnd : ∀ b ∈ pD, (b.map Prod.fst).Nodup) :
    ∀ b ∈ (dictRemoveRaw hash pD u k).2.1, (b.map Prod.fst).Nodup := by
  intro b hb
  rw [dictRemoveRaw] at hb
  cases hrem : chainRemove k (pD.getD (hash k % pD.length) []) with
  | none =>
    rw [hrem] at hb
    exact hnd _ hb
  | some b' =>
    rw [hrem] at hb
    rcases mem_set_elem _ _ _ _ hb with rfl | hmem
    · have hb0 : ((pD.getD (hash k % pD.length) []).map Prod.fst).Nodup := by
        rcases getD_mem_or_default pD (hash k % pD.length) [] with h | h
        · exact hnd _ h
        · rw [h]; simp
      exact List.Nodup.sublist (map_fst_chainRemove_sublist k _ _ hrem) hb0
    · exact hnd _ hmem

theorem dictInv_dictSet {Key Value : Type} [DecidableEq Key]
    (hash : Key → Nat) (d : DictState Key Value) (k : Key) (v : Value)
    (hd : DictInv d) : DictInv (dictSet hash d k v) := by
  rw [dictSet_of_inv hash d k v hd]
  refine ⟨?_, hd.2.1, ?_⟩
  · rw [length_dictSetRaw]
    exact hd.1
  · exact nodup_dictSetRaw hash d.dict d.used k v hd.2.2

theorem dictInv_dictRemove {Key Value : Type} [DecidableEq Key]
    (hash : Key → Nat) (d : DictState Key Value) (k : Key)
    (hd : DictInv d) : DictInv (dictRemove hash d k).2 := by
  rw [dictRemove_of_inv hash d k hd]
  refine ⟨?_, hd.2.1, ?_⟩
  · rw [length_dictRemoveRaw]
    exact hd.1
  · exact nodup_dictRemoveRaw hash d.dict d.used k hd.2.2

/-! ## Storage-level lemmas -/

theorem mem_sortedInsert (k a : String) :
    ∀ l : List String, a ∈ sortedInsert k l ↔ a = k ∨ a ∈ l := by
  intro l
  induction l with
  | nil => simp [sortedInsert]
  | cons x xs ih =>
    by_cases h1 : k < x
    · simp [sortedInsert, h1]
    · by_cases h2 : x < k
      · simp only [sortedInsert, if_neg h1, if_pos h2, List.mem_cons, ih]
        tauto
      · have hkx : k = x := le_antisymm (not_lt.mp h2) (not_lt.mp h1)
        subst hkx
        simp only [sortedInsert, if_neg h1, if_neg h2, List.mem_cons]
        tauto

theorem pairwise_sortedInsert (k : String) :
    ∀ l : List String, l.Pairwise (· < ·) →
      (sortedInsert k l).Pairwise (· < ·) := by
  intro l
  induction l with
  | nil =>
    intro _
    simp [sortedInsert]
  | cons x xs ih =>
    intro hp
    rw [List.pairwise_cons] at hp
    by_cases h1 : k < x
    · simp only [sortedInsert, if_pos h1]
      refine List.Pairwise.cons ?_ (List.Pairwise.cons hp.1 hp.2)
      intro a ha
      rcases List.mem_cons.mp ha with rfl | ha'
      · exact h1
      · exact lt_trans h1 (hp.1 a ha')
    · by_cases h2 : x < k
      · simp only [sortedInsert, if_neg h1, if_pos h2]
        refine List.Pairwise.cons ?_ (ih hp.2)
        intro a ha
        rcases (mem_sortedInsert k a xs).mp ha with rfl | ha'
        · exact h2
        · exact hp.1 a ha'
      · simp only [sortedInsert, if_neg h1, if_neg h2]
        exact List.Pairwise.cons hp.1 hp.2

theorem isExist_of_inv (hash : String → Nat) (s : StorageState) (k : String)
    (hkv : DictInv s.keyValueDictionary) :
    isExist hash s k = ((lookupKV hash s k).isSome, s) := by
  rw [isExist, dictGet_of_inv hash _ k hkv]
  rfl

theorem isExpired_of_inv (hash : String → Nat) (s : StorageState) (k : String)
    (httl : DictInv s.keyTtlDictionary) :
    isExpired hash s k = (expiredPure hash s k, s) := by
  rw [isExpired, dictGet_of_inv hash _ k httl]
  rfl

theorem storageGet_of_inv (hash : String → Nat) (s : StorageState) (k : String)
    (hinv : SInv hash s) :
    storageGet hash s k =
      (.ok (if expiredPure hash s k then none else lookupKV hash s k), s) := by
  obtain ⟨hkv, httl, -, -⟩ := hinv
  rw [storageGet, isExist_of_inv _ _ _ hkv]
  cases hlk : lookupKV hash s k with
  | none => simp [ite_self]
  | some v =>
    simp only [Option.isSome_some, Bool.not_true, Bool.false_eq_true, if_false]
    rw [isExpired_of_inv _ _ _ httl]
    by_cases hexp : expiredPure hash s k = true
    · simp [hexp]
    · simp only [Bool.not_eq_true] at hexp
      rw [hexp]
      simp only [Bool.false_eq_true, if_false]
      rw [dictGet_of_inv hash _ k hkv]
      show (match lookupKV hash s k with
        | some vv => ((Except.ok (some vv) : Except Unit (Option String)), s)
        | none => ((Except.error () : Except Unit (Option String)), s)) = _
      rw [hlk]

theorem storageSet_pos (hash : String → Nat) (s : StorageState)
    (k v : String) (ttl : Nat) (ht : ttl ≠ 0) :
    storageSet hash s k v ttl =
      { keyValueDictionary := dictSet hash s.keyValueDictionary k v,
        keyTtlDictionary := dictSet hash s.keyTtlDictionary k (ttl + s.clock),
        setSortedKeyPtr := sortedInsert k s.setSortedKeyPtr,
        setSortedTtlPtr := s.setSortedTtlPtr ++ [(k, ttl + s.clock)],
        clock := s.clock } := by
  rw [storageSet]
  simp [ht]

theorem storageSet_zero (hash : String → Nat) (s : StorageState) (k v : String) :
    storageSet hash s k v 0 =
      { s with keyValueDictionary := dictSet hash s.keyValueDictionary k v,
               setSortedKeyPtr := sortedInsert k s.setSortedKeyPtr } := by
  rw [storageSet]
  simp

theorem keyValueDictionary_storageSet (hash : String → Nat) (s : StorageState)
    (k v : String) (ttl : Nat) :
    (storageSet hash s k v ttl).keyValueDictionary =
      dictSet hash s.keyValueDictionary k v := by
  by_cases ht : ttl = 0
  · subst ht; rw [storageSet_zero]
  · rw [storageSet_pos hash s k v ttl ht]

theorem setSortedKeyPtr_storageSet (hash : String → Nat) (s : StorageState)
    (k v : String) (ttl : Nat) :
    (storageSet hash s k v ttl).setSortedKeyPtr =
      sortedInsert k s.setSortedKeyPtr := by
  by_cases ht : ttl = 0
  · subst ht; rw [storageSet_zero]
  · rw [storageSet_pos hash s k v ttl ht]

theorem clock_storageSet (hash : String → Nat) (s : StorageState)
    (k v : String) (ttl : Nat) :
    (storageSet hash s k v ttl).clock = s.clock := by
  by_cases ht : ttl = 0
  · subst ht; rw [storageSet_zero]
  · rw [storageSet_pos hash s k v ttl ht]

theorem lookupKV_storageSet (hash : String → Nat) (s : StorageState)
    (k k2 v : String) (ttl : Nat) (hkv : DictInv s.keyValueDictionary) :
    lookupKV hash (storageSet hash s k v ttl) k2 =
      if k2 = k then some v else lookupKV hash s k2 := by
  have hpos : 0 < s.keyValueDictionary.dict.length := by
    rw [hkv.1]; norm_num
  rw [lookupKV, keyValueDictionary_storageSet, dictSet_of_inv hash _ k v hkv]
  by_cases hk : k2 = k
  · subst hk
    simpa using dictGetRaw_setRaw_self hash _ s.keyValueDictionary.used k2 v hpos
  · simp only [if_neg hk]
    simpa using dictGetRaw_setRaw_ne hash _ s.keyValueDictionary.used k k2 v hpos hk

theorem lookupTtl_storageSet (hash : String → Nat) (s : StorageState)
    (k k2 v : String) (ttl : Nat) (httl : DictInv s.keyTtlDictionary) :
    lookupTtl hash (storageSet hash s k v ttl) k2 =
      if ttl ≠ 0 ∧ k2 = k then some (ttl + s.clock) else lookupTtl hash s k2 := by
  have hpos : 0 < s.keyTtlDictionary.dict.length := by
    rw [httl.1]; norm_num
  by_cases ht : ttl = 0
  · subst ht
    rw [storageSet_zero]
    simp [lookupTtl]
  · rw [storageSet_pos hash s k v ttl ht, lookupTtl]
    show dictGetRaw hash (dictSet hash s.keyTtlDictionary k (ttl + s.clock)).dict k2 = _
    rw [dictSet_of_inv hash _ k (ttl + s.clock) httl]
    by_cases hk : k2 = k
    · subst hk
      rw [if_pos ⟨ht, rfl⟩]
      simpa using dictGetRaw_setRaw_self hash _ s.keyTtlDictionary.used k2 (ttl + s.clock) hpos
    · simp only [hk, and_false, if_false]
      simpa using
        dictGetRaw_setRaw_ne hash _ s.keyTtlDictionary.used k k2 (ttl + s.clock) hpos hk

theorem sInv_storageSet (hash : String → Nat) (s : StorageState)
    (k v : String) (ttl : Nat) (hinv : SInv hash s) :
    SInv hash (storageSet hash s k v ttl) := by
  obtain ⟨hkv, httl, hpw, hmem⟩ := hinv
  have hkv' : DictInv (storageSet hash s k v ttl).keyValueDictionary := by
    rw [keyValueDictionary_storageSet]
    exact dictInv_dictSet hash _ k v hkv
  have httl' : DictInv (storageSet hash s k v ttl).keyTtlDictionary := by
    by_cases ht : ttl = 0
    · subst ht
      rw [storageSet_zero]
      exact httl
    · rw [storageSet_pos hash s k v ttl ht]
      exact dictInv_dictSet hash _ k (ttl + s.clock) httl
  refine ⟨hkv', httl', ?_, ?_⟩
  · rw [setSortedKeyPtr_storageSet]
    exact pairwise_sortedInsert k _ hpw
  · intro k2
    rw [setSortedKeyPtr_storageSet, mem_sortedInsert,
      lookupKV_storageSet hash s k k2 v ttl hkv]
    by_cases hk : k2 = k
    · simp [hk]
    · simp [hk, hmem k2]

theorem storageRemove_absent (hash : String → Nat) (s : StorageState)
    (k : String) (hkv : DictInv s.keyValueDictionary)
    (hlk : lookupKV hash s k = none) :
    storageRemove hash s k = (false, s) := by
  rw [storageRemove, isExist_of_inv _ _ _ hkv, hlk]
  rfl

theorem storageRemove_present (hash : String → Nat) (s : StorageState)
    (k : String) (hkv : DictInv s.keyValueDictionary)
    (hlk : (lookupKV hash s k).isSome = true) :
    storageRemove hash s k =
      (true,
        { keyValueDictionary := (dictRemove hash s.keyValueDictionary k).2,
          keyTtlDictionary := (dictRemove hash s.keyTtlDictionary k).2,
          setSortedKeyPtr := s.setSortedKeyPtr.erase k,
          setSortedTtlPtr := s.setSortedTtlPtr.eraseP (fun c => c.1 == k),
          clock := s.clock }) := by
  obtain ⟨v, hv⟩ := Option.isSome_iff_exists.mp hlk
  rw [storageRemove, isExist_of_inv _ _ _ hkv]
  rw [hv]
  simp only [Option.isSome_some, Bool.not_true, Bool.false_eq_true, if_false]
  rw [dictGet_of_inv _ _ _ hkv]
  have hv' : dictGetRaw hash s.keyValueDictionary.dict k = some v := hv
  simp only [hv', Option.isSome_some, if_true]

theorem lookupKV_storageRemove_self (hash : String → Nat) (s : StorageState)
    (k : String) (hkv : DictInv s.keyValueDictionary) :
    lookupKV hash (storageRemove hash s k).2 k = none := by
  have hpos : 0 < s.keyValueDictionary.dict.length := by
    rw [hkv.1]; norm_num
  cases hlk : lookupKV hash s k with
  | none =>
    rw [storageRemove_absent hash s k hkv hlk]
    exact hlk
  | some v =>
    rw [storageRemove_present hash s k hkv (by rw [hlk]; rfl)]
    show dictGetRaw hash (dictRemove hash s.keyValueDictionary k).2.dict k = none
    rw [dictRemove_of_inv hash _ k hkv]
    simpa using dictGetRaw_removeRaw_self hash _ s.keyValueDictionary.used k hpos hkv.2.2

theorem lookupKV_storageRemove_ne (hash : String → Nat) (s : StorageState)
    (k k2 : String) (hkv : DictInv s.keyValueDictionary) (hne : k2 ≠ k) :
    lookupKV hash (storageRemove hash s k).2 k2 = lookupKV hash s k2 := by
  have hpos : 0 < s.keyValueDictionary.dict.length := by
    rw [hkv.1]; norm_num
  cases hlk : lookupKV hash s k with
  | none => rw [storageRemove_absent hash s k hkv hlk]
  | some v =>
    rw [storageRemove_present hash s k hkv (by rw [hlk]; rfl)]
    show dictGetRaw hash (dictRemove hash s.keyValueDictionary k).2.dict k2 = _
    rw [dictRemove_of_inv hash _ k hkv]
    simpa using dictGetRaw_removeRaw_ne hash _ s.keyValueDictionary.used k k2 hpos hne

theorem lookupTtl_storageRemove_self (hash : String → Nat) (s : StorageState)
    (k : String) (hkv : DictInv s.keyValueDictionary)
    (httl : DictInv s.keyTtlDictionary)
    (hlk : (lookupKV hash s k).isSome = true) :
    lookupTtl hash (storageRemove hash s k).2 k = none := by
  have hpos : 0 < s.keyTtlDictionary.dict.length := by
    rw [httl.1]; norm_num
  rw [storageRemove_present hash s k hkv hlk]
  show dictGetRaw hash (dictRemove hash s.keyTtlDictionary k).2.dict k = none
  rw [dictRemove_of_inv hash _ k httl]
  simpa using dictGetRaw_removeRaw_self hash _ s.keyTtlDictionary.used k hpos httl.2.2

theorem lookupTtl_storageRemove_ne (hash : String → Nat) (s : StorageState)
    (k k2 : String) (hkv : DictInv s.keyValueDictionary)
    (httl : DictInv s.keyTtlDictionary) (hne : k2 ≠ k) :
    lookupTtl hash (storageRemove hash s k).2 k2 = lookupTtl hash s k2 := by
  have hpos : 0 < s.keyTtlDictionary.dict.length := by
    rw [httl.1]; norm_num
  cases hlk : lookupKV hash s k with
  | none => rw [storageRemove_absent hash s k hkv hlk]
  | some v =>
    rw [storageRemove_present hash s k hkv (by rw [hlk]; rfl)]
    show dictGetRaw hash (dictRemove hash s.keyTtlDictionary k).2.dict k2 = _
    rw [dictRemove_of_inv hash _ k httl]
    simpa using dictGetRaw_removeRaw_ne hash _ s.keyTtlDictionary.used k k2 hpos hne

theorem sInv_storageRemove (hash : String → Nat) (s : StorageState)
    (k : String) (hinv : SInv hash s) :
    SInv hash (storageRemove hash s k).2 := by
  obtain ⟨hkv, httl, hpw, hmem⟩ := hinv
  cases hlk : lookupKV hash s k with
  | none =>
    rw [storageRemove_absent hash s k hkv hlk]
    exact ⟨hkv, httl, hpw, hmem⟩
  | some v =>
    have hsome : (lookupKV hash s k).isSome = true := by rw [hlk]; rfl
    have hnd : s.setSortedKeyPtr.Nodup := hpw.imp ne_of_lt
    constructor
    · rw [storageRemove_present hash s k hkv hsome]
      exact dictInv_dictRemove hash _ k hkv
    constructor
    · rw [storageRemove_present hash s k hkv hsome]
      exact dictInv_dictRemove hash _ k httl
    constructor
    · rw [storageRemove_present hash s k hkv hsome]
      exact hpw.sublist (List.erase_sublist _ _)
    · intro k2
      have hkeys : (storageRemove hash s k).2.setSortedKeyPtr =
          s.setSortedKeyPtr.erase k := by
        rw [storageRemove_present hash s k hkv hsome]
      rw [hkeys, hnd.mem_erase_iff]
      by_cases hk : k2 = k
      · subst hk
        rw [lookupKV_storageRemove_self hash s k2 hkv]
        simp
      · rw [lookupKV_storageRemove_ne hash s k k2 hkv hk]
        simp [hk, hmem k2]

theorem collectSorted_snd (hash : String → Nat) (s : StorageState)
    (hinv : SInv hash s) :
    ∀ (ks : List String) (n : Nat), (collectSorted hash s ks n).2 = s := by
  intro ks
  induction ks with
  | nil => intro n; rfl
  | cons k ks ih =>
    intro n
    cases n with
    | zero => rfl
    | succ m =>
      rw [collectSorted, isExpired_of_inv _ _ _ hinv.2.1]
      by_cases hexp : expiredPure hash s k = true
      · rw [hexp]
        simpa using ih (m + 1)
      · simp only [Bool.not_eq_true] at hexp
        rw [hexp]
        simp only [Bool.false_eq_true, if_false]
        rw [storageGet_of_inv _ _ _ hinv, hexp]
        simp only [Bool.false_eq_true, if_false]
        cases hlk : lookupKV hash s k with
        | none => rfl
        | some v =>
          have hgoal : (match collectSorted hash s ks m with
              | (Except.ok res, s3) =>
                ((Except.ok ((k, v) :: res) :
                  Except Unit (List (String × String))), s3)
              | (Except.error e, s3) =>
                ((Except.error e :
                  Except Unit (List (String × String))), s3)).2 = s := by
            cases hc : collectSorted hash s ks m with
            | mk r s' =>
              have hrec := ih m
              rw [hc] at hrec
              cases r with
              | ok res => exact hrec
              | error e => exact hrec
          exact hgoal

theorem storageGetManySorted_snd (hash : String → Nat) (s : StorageState)
    (startKey : String) (count : Nat) (hinv : SInv hash s) :
    (storageGetManySorted hash s startKey count).2 = s := by
  rw [storageGetManySorted]
  exact collectSorted_snd hash s hinv _ count

theorem storageRemoveOne_of_inv (hash : String → Nat) (s : StorageState)
    (hinv : SInv hash s) :
    storageRemoveOneExpiredEntry hash s =
      match s.setSortedTtlPtr with
      | [] => (.ok none, s)
      | (k, e) :: _ =>
        if e < s.clock then
          match lookupKV hash s k with
          | none => (.error (), s)
          | some v => (.ok (some (k, v)), (storageRemove hash s k).2)
        else (.ok none, s) := by
  obtain ⟨cells, hcells⟩ : ∃ c, s.setSortedTtlPtr = c := ⟨_, rfl⟩
  rw [storageRemoveOneExpiredEntry, hcells]
  cases cells with
  | nil => rfl
  | cons hd tl =>
    obtain ⟨k, e⟩ := hd
    by_cases he : e < s.clock
    · simp only [if_pos he]
      rw [dictGet_of_inv _ _ _ hinv.1]
      cases hlk : lookupKV hash s k with
      | none =>
        have hlk' : dictGetRaw hash s.keyValueDictionary.dict k = none := hlk
        simp only [hlk']
        rw [← hcells]
      | some v =>
        have hlk' : dictGetRaw hash s.keyValueDictionary.dict k = some v := hlk
        simp only [hlk']
        rw [← hcells]
    · simp [he]

theorem sInv_storageRemoveOne (hash : String → Nat) (s : StorageState)
    (hinv : SInv hash s) :
    SInv hash (storageRemoveOneExpiredEntry hash s).2 := by
  rw [storageRemoveOne_of_inv hash s hinv]
  obtain ⟨cells, hcells⟩ : ∃ c, s.setSortedTtlPtr = c := ⟨_, rfl⟩
  rw [hcells]
  cases cells with
  | nil => exact hinv
  | cons hd tl =>
    obtain ⟨k, e⟩ := hd
    by_cases he : e < s.clock
    · simp only [if_pos he]
      cases hlk : lookupKV hash s k with
      | none => exact hinv
      | some v => exact sInv_storageRemove hash s k hinv
    · simp only [if_neg he]
      exact hinv

theorem sInv_storageGet (hash : String → Nat) (s : StorageState) (k : String)
    (hinv : SInv hash s) : SInv hash (storageGet hash s k).2 := by
  rw [storageGet_of_inv hash s k hinv]
  exact hinv

theorem sInv_tick (hash : String → Nat) (s : StorageState) (n : Nat)
    (hinv : SInv hash s) : SInv hash (tickClock s n) := by
  obtain ⟨hkv, httl, hpw, hmem⟩ := hinv
  exact ⟨hkv, httl, hpw, hmem⟩

theorem dictInv_dictMk {Key Value : Type} :
    DictInv (dictMk BASIC_DICTIONARY_SIZE : DictState Key Value) := by
  refine ⟨by simp [dictMk, BASIC_DICTIONARY_SIZE], rfl, ?_⟩
  intro b hb
  rw [dictMk] at hb
  simp only [List.mem_replicate] at hb
  rw [hb.2]
  simp

theorem dictGetRaw_dictMk {Key Value : Type} [DecidableEq Key]
    (hash : Key → Nat) (size : Nat) (k : Key) :
    dictGetRaw hash (dictMk size : DictState Key Value).dict k = none := by
  show chainFind k ((List.replicate size ([] : List (Key × Value))).getD
    (hash k % (List.replicate size ([] : List (Key × Value))).length) []) = none
  rcases getD_mem_or_default (List.replicate size ([] : List (Key × Value)))
      (hash k % (List.replicate size ([] : List (Key × Value))).length) []
      with h | h
  · rw [List.eq_of_mem_replicate h]
    rfl
  · rw [h]
    rfl

theorem sInv_init (hash : String → Nat) (clock0 : Nat) :
    SInv hash (storageInit clock0) := by
  refine ⟨dictInv_dictMk, dictInv_dictMk, by simp [storageInit], ?_⟩
  intro k
  show k ∈ ([] : List String) ↔
    (dictGetRaw hash (dictMk BASIC_DICTIONARY_SIZE :
      DictState String String).dict k).isSome = true
  rw [dictGetRaw_dictMk]
  simp

theorem reachable_sInv {hash : String → Nat} {s : StorageState}
    (hr : Reachable hash s) : SInv hash s := by
  induction hr with
  | init clock0 => exact sInv_init hash clock0
  | step hr hstep ih =>
    cases hstep with
    | set k v ttl => exact sInv_storageSet hash _ k v ttl ih
    | remove k => exact sInv_storageRemove hash _ k ih
    | get k => exact sInv_storageGet hash _ k ih
    | getManySorted startKey count =>
      rw [storageGetManySorted_snd hash _ startKey count ih]
      exact ih
    | removeOneExpiredEntry => exact sInv_storageRemoveOne hash _ ih
    | tick n => exact sInv_tick hash _ n ih

theorem collectSorted_of_inv (hash : String → Nat) (s : StorageState)
    (hinv : SInv hash s) :
    ∀ (ks : List String) (n : Nat),
      (∀ k ∈ ks, k ∈ s.setSortedKeyPtr) →
      collectSorted hash s ks n =
        (.ok ((ks.filterMap (fun k =>
          if expiredPure hash s k then none
          else (lookupKV hash s k).map (fun v => (k, v)))).take n), s) := by
  intro ks
  induction ks with
  | nil =>
    intro n _
    simp [collectSorted]
  | cons k ks ih =>
    intro n hks
    cases n with
    | zero => simp [collectSorted]
    | succ m =>
      rw [collectSorted, isExpired_of_inv _ _ _ hinv.2.1]
      by_cases hexp : expiredPure hash s k = true
      · rw [hexp]
        simp only [if_true]
        rw [ih (m + 1) (fun a ha => hks a (List.mem_cons_of_mem _ ha))]
        simp [hexp]
      · simp only [Bool.not_eq_true] at hexp
        rw [hexp]
        simp only [Bool.false_eq_true, if_false]
        rw [storageGet_of_inv _ _ _ hinv, hexp]
        simp only [Bool.false_eq_true, if_false]
        have hk : k ∈ s.setSortedKeyPtr := hks k (List.mem_cons_self _ _)
        have hsome : (lookupKV hash s k).isSome = true := (hinv.2.2.2 k).mp hk
        obtain ⟨v, hv⟩ := Option.isSome_iff_exists.mp hsome
        rw [hv]
        have hrec := ih m (fun a ha => hks a (List.mem_cons_of_mem _ ha))
        have hgoal : (match collectSorted hash s ks m with
            | (Except.ok res, s3) =>
              ((Except.ok ((k, v) :: res) :
                Except Unit (List (String × String))), s3)
            | (Except.error e, s3) =>
              ((Except.error e :
                Except Unit (List (String × String))), s3)) =
            ((Except.ok ((k, v) :: (List.take m (List.filterMap
              (fun a => if expiredPure hash s a = true then none
                else Option.map (fun w => (a, w)) (lookupKV hash s a)) ks))) :
              Except Unit (List (String × String))), s) := by
          rw [hrec]
        refine hgoal.trans ?_
        have hfc : List.filterMap
            (fun a => if expiredPure hash s a = true then none
              else Option.map (fun w => (a, w)) (lookupKV hash s a)) (k :: ks) =
            (k, v) :: List.filterMap
              (fun a => if expiredPure hash s a = true then none
                else Option.map (fun w => (a, w)) (lookupKV hash s a)) ks :=
          List.filterMap_cons_some (by simp [hexp, hv])
        rw [hfc, List.take_succ_cons]

theorem storageGetManySorted_of_inv (hash : String → Nat) (s : StorageState)
    (startKey : String) (count : Nat) (hinv : SInv hash s) :
    storageGetManySorted hash s startKey count =
      (.ok (specScan hash s startKey count), s) := by
  rw [storageGetManySorted, specScan]
  exact collectSorted_of_inv hash s hinv _ count
    (fun a ha => (List.dropWhile_sublist _).subset ha)

theorem map_fst_filterMap_scan_sublist (hash : String → Nat)
    (s : StorageState) :
    ∀ ks : List String,
      List.Sublist ((ks.filterMap (fun k =>
        if expiredPure hash s k then none
        else (lookupKV hash s k).map (fun v => (k, v)))).map Prod.fst) ks := by
  intro ks
  induction ks with
  | nil => simp
  | cons k ks ih =>
    by_cases hexp : expiredPure hash s k = true
    · rw [List.filterMap_cons_none (by simp [hexp])]
      exact ih.cons k
    · simp only [Bool.not_eq_true] at hexp
      cases hv : lookupKV hash s k with
      | none =>
        rw [List.filterMap_cons_none (by simp [hexp, hv])]
        exact ih.cons k
      | some v =>
        have hfc : List.filterMap (fun a =>
            if expiredPure hash s a then none
            else (lookupKV hash s a).map (fun w => (a, w))) (k :: ks) =
            (k, v) :: List.filterMap (fun a =>
              if expiredPure hash s a then none
              else (lookupKV hash s a).map (fun w => (a, w))) ks :=
          List.filterMap_cons_some (by simp [hexp, hv])
        rw [hfc]
        simpa using ih.cons₂ k

theorem dropWhile_lt_ge (startKey : String) :
    ∀ l : List String, l.Pairwise (· < ·) →
      ∀ a ∈ l.dropWhile (fun x => decide (x < startKey)), startKey ≤ a := by
  intro l
  induction l with
  | nil => intro _ a ha; simp at ha
  | cons x xs ih =>
    intro hp a ha
    rw [List.pairwise_cons] at hp
    by_cases hx : x < startKey
    · rw [List.dropWhile_cons_of_pos (by simpa using hx)] at ha
      exact ih hp.2 a ha
    · rw [List.dropWhile_cons_of_neg (by simpa using hx)] at ha
      rcases List.mem_cons.mp ha with rfl | ha'
      · exact not_lt.mp hx
      · exact le_of_lt (lt_of_le_of_lt (not_lt.mp hx) (hp.1 a ha'))

theorem specScan_keys_pairwise (hash : String → Nat) (s : StorageState)
    (startKey : String) (count : Nat) (hpw : s.setSortedKeyPtr.Pairwise (· < ·)) :
    ((specScan hash s startKey count).map Prod.fst).Pairwise (· < ·) := by
  have h1 := map_fst_filterMap_scan_sublist hash s
    (s.setSortedKeyPtr.dropWhile (fun x => decide (x < startKey)))
  have h2 : List.Sublist
      (s.setSortedKeyPtr.dropWhile (fun x => decide (x < startKey)))
      s.setSortedKeyPtr := List.dropWhile_sublist _
  rw [specScan, List.map_take]
  exact List.Pairwise.sublist
    ((List.take_sublist _ _).trans (h1.trans h2)) hpw

theorem specScan_keys_ge (hash : String → Nat) (s : StorageState)
    (startKey : String) (count : Nat) (hpw : s.setSortedKeyPtr.Pairwise (· < ·)) :
    ∀ p ∈ specScan hash s startKey count, startKey ≤ p.1 := by
  intro p hp
  rw [specScan] at hp
  have hp1 : p ∈ (s.setSortedKeyPtr.dropWhile
      (fun x => decide (x < startKey))).filterMap (fun k =>
        if expiredPure hash s k then none
        else (lookupKV hash s k).map (fun v => (k, v))) :=
    (List.take_sublist _ _).subset hp
  rw [List.mem_filterMap] at hp1
  obtain ⟨k, hk, hfk⟩ := hp1
  have hpk : p.1 = k := by
    by_cases hexp : expiredPure hash s k = true
    · simp [hexp] at hfk
    · simp only [Bool.not_eq_true] at hexp
      rw [hexp] at hfk
      simp only [Bool.false_eq_true, if_false, Option.map_eq_some'] at hfk
      obtain ⟨v, -, hv⟩ := hfk
      rw [← hv]
  rw [hpk]
  exact dropWhile_lt_ge startKey _ hpw k hk

theorem specScan_length_le (hash : String → Nat) (s : StorageState)
    (startKey : String) (count : Nat) :
    (specScan hash s startKey count).length ≤ count := by
  rw [specScan]
  exact List.length_take_le _ _

theorem setSortedTtlPtr_storageSet (hash : String → Nat) (s : StorageState)
    (k v : String) (ttl : Nat) :
    (storageSet hash s k v ttl).setSortedTtlPtr =
      if ttl ≠ 0 then s.setSortedTtlPtr ++ [(k, ttl + s.clock)]
      else s.setSortedTtlPtr := by
  by_cases ht : ttl = 0
  · subst ht
    rw [storageSet_zero]
    simp
  · rw [storageSet_pos hash s k v ttl ht]
    simp [ht]

theorem lookupKV_tick (hash : String → Nat) (s : StorageState) (n : Nat)
    (k : String) : lookupKV hash (tickClock s n) k = lookupKV hash s k := rfl

theorem lookupTtl_tick (hash : String → Nat) (s : StorageState) (n : Nat)
    (k : String) : lookupTtl hash (tickClock s n) k = lookupTtl hash s k := rfl

theorem countP_eraseP {α : Type} (p : α → Bool) :
    ∀ l : List α, (l.eraseP p).countP p = l.countP p - min 1 (l.countP p) := by
  intro l
  induction l with
  | nil => simp
  | cons x xs ih =>
    by_cases hx : p x = true
    · rw [List.eraseP_cons_of_pos hx, List.countP_cons_of_pos _ _ hx]
      simp
    · have hx' : ¬ p x = true := hx
      rw [List.eraseP_cons_of_neg hx', List.countP_cons_of_neg _ _ hx',
        List.countP_cons_of_neg _ _ hx']
      exact ih

theorem roundTrip_preserved (hash : String → Nat) (k0 v : String) :
    ∀ {s t : StorageState}, StepAvoiding hash k0 s t →
      (SInv hash s ∧ lookupKV hash s k0 = some v ∧
        lookupTtl hash s k0 = none ∧
        ∀ c ∈ s.setSortedTtlPtr, c.1 ≠ k0) →
      (SInv hash t ∧ lookupKV hash t k0 = some v ∧
        lookupTtl hash t k0 = none ∧
        ∀ c ∈ t.setSortedTtlPtr, c.1 ≠ k0) := by
  intro s t hstep hJ
  obtain ⟨hinv, hkv0, httl0, hcells0⟩ := hJ
  have removeCase : ∀ (k : String), k ≠ k0 →
      (SInv hash (storageRemove hash s k).2 ∧
        lookupKV hash (storageRemove hash s k).2 k0 = some v ∧
        lookupTtl hash (storageRemove hash s k).2 k0 = none ∧
        ∀ c ∈ (storageRemove hash s k).2.setSortedTtlPtr, c.1 ≠ k0) := by
    intro k hk
    have hne : k0 ≠ k := fun hh => hk hh.symm
    refine ⟨sInv_storageRemove hash s k hinv, ?_, ?_, ?_⟩
    · rw [lookupKV_storageRemove_ne hash s k k0 hinv.1 hne]
      exact hkv0
    · rw [lookupTtl_storageRemove_ne hash s k k0 hinv.1 hinv.2.1 hne]
      exact httl0
    · intro c hc
      cases hlk : lookupKV hash s k with
      | none =>
        rw [storageRemove_absent hash s k hinv.1 hlk] at hc
        exact hcells0 c hc
      | some w =>
        rw [storageRemove_present hash s k hinv.1 (by rw [hlk]; rfl)] at hc
        exact hcells0 c ((List.eraseP_sublist _).subset hc)
  cases hstep with
  | set k v' ttl hk =>
    have hne : k0 ≠ k := fun hh => hk hh.symm
    refine ⟨sInv_storageSet hash s k v' ttl hinv, ?_, ?_, ?_⟩
    · rw [lookupKV_storageSet hash s k k0 v' ttl hinv.1, if_neg hne]
      exact hkv0
    · rw [lookupTtl_storageSet hash s k k0 v' ttl hinv.2.1,
        if_neg (fun hh => hne hh.2)]
      exact httl0
    · intro c hc
      rw [setSortedTtlPtr_storageSet] at hc
      by_cases ht : ttl ≠ 0
      · rw [if_pos ht] at hc
        rcases List.mem_append.mp hc with hc' | hc'
        · exact hcells0 c hc'
        · rcases List.mem_singleton.mp hc' with rfl
          exact hk
      · rw [if_neg ht] at hc
        exact hcells0 c hc
  | remove k hk => exact removeCase k hk
  | get k =>
    rw [storageGet_of_inv hash s k hinv]
    exact ⟨hinv, hkv0, httl0, hcells0⟩
  | getManySorted startKey count =>
    rw [storageGetManySorted_snd hash s startKey count hinv]
    exact ⟨hinv, hkv0, httl0, hcells0⟩
  | removeOneExpiredEntry =>
    rw [storageRemoveOne_of_inv hash s hinv]
    obtain ⟨cells, hcells⟩ : ∃ c, s.setSortedTtlPtr = c := ⟨_, rfl⟩
    rw [hcells]
    cases cells with
    | nil => exact ⟨hinv, hkv0, httl0, hcells0⟩
    | cons hd tl =>
      obtain ⟨k, e⟩ := hd
      have hkk0 : k ≠ k0 :=
        hcells0 (k, e) (by rw [hcells]; exact List.mem_cons_self _ _)
      by_cases he : e < s.clock
      · simp only [if_pos he]
        cases hlk : lookupKV hash s k with
        | none => exact ⟨hinv, hkv0, httl0, hcells0⟩
        | some w => exact removeCase k hkk0
      · simp only [if_neg he]
        exact ⟨hinv, hkv0, httl0, hcells0⟩
  | tick n =>
    exact ⟨sInv_tick hash s n hinv, hkv0, httl0, hcells0⟩

theorem removeOne_ok_of (hash : String → Nat) {s : StorageState}
    {k : String} {e : Nat} {tl : List (String × Nat)} {v : String}
    (hinv : SInv hash s) (hcells : s.setSortedTtlPtr = (k, e) :: tl)
    (he : e < s.clock) (hlk : lookupKV hash s k = some v) :
    storageRemoveOneExpiredEntry hash s =
      (.ok (some (k, v)), (storageRemove hash s k).2) := by
  rw [storageRemoveOne_of_inv hash s hinv, hcells]
  simp only [if_pos he, hlk]

theorem removeOne_error_of (hash : String → Nat) {s : StorageState}
    {k : String} {e : Nat} {tl : List (String × Nat)}
    (hinv : SInv hash s) (hcells : s.setSortedTtlPtr = (k, e) :: tl)
    (he : e < s.clock) (hlk : lookupKV hash s k = none) :
    storageRemoveOneExpiredEntry hash s = (.error (), s) := by
  rw [storageRemoveOne_of_inv hash s hinv, hcells]
  simp only [if_pos he, hlk]

/-! ## Claim theorems -/

/-- Claim C7: for every reachable storage state, start key and count,
`getManySorted` returns — without any fault — exactly the first up-to-count
live (non-expired) keys ≥ startKey paired with their stored values
(`specScan`, written from the spec's words), the returned key sequence is
strictly lexicographically increasing with all keys ≥ startKey and length
≤ count, and the stored state is completely unchanged by the scan
(expired entries are skipped, not deleted). -/
theorem C7_getManySorted_ordered_window (hash : String → Nat)
    (s : StorageState) (startKey : String) (count : Nat)
    (hr : Reachable hash s) :
    storageGetManySorted hash s startKey count =
      (.ok (specScan hash s startKey count), s) ∧
    ((specScan hash s startKey count).map Prod.fst).Pairwise (· < ·) ∧
    (∀ p ∈ specScan hash s startKey count, startKey ≤ p.1) ∧
    (specScan hash s startKey count).length ≤ count := by
  have hinv := reachable_sInv hr
  exact ⟨storageGetManySorted_of_inv hash s startKey count hinv,
    specScan_keys_pairwise hash s startKey count hinv.2.2.1,
    specScan_keys_ge hash s startKey count hinv.2.2.1,
    specScan_length_le hash s startKey count⟩

/-- Witness for C7: the scan at a concrete reachable one-entry state,
with the reachability hypothesis discharged by an explicit trace. -/
theorem C7_witness :
    storageGetManySorted exHash (storageSet exHash (storageInit 0) "b" "w" 0)
        "a" 2 =
      (.ok (specScan exHash (storageSet exHash (storageInit 0) "b" "w" 0) "a" 2),
        storageSet exHash (storageInit 0) "b" "w" 0) :=
  (C7_getManySorted_ordered_window exHash
    (storageSet exHash (storageInit 0) "b" "w" 0) "a" 2
    (Reachable.step (Reachable.init 0) (Step.set _ "b" "w" 0))).1

/-- Claim C9 (amended): in every reachable state, a key appears in the
key-ordered set exactly when it is present in the value index.  The
expiration half of the original claim is false — see `C9_counterexample`:
stale expiration entries survive a re-`set` with ttl 0, so membership in
the expiration index does not coincide with currently having a finite
TTL. -/
theorem C9_keySet_iff_valueIndex (hash : String → Nat) (s : StorageState)
    (hr : Reachable hash s) (k : String) :
    k ∈ s.setSortedKeyPtr ↔
      ((dictGet hash s.keyValueDictionary k).1).isSome = true := by
  have hinv := reachable_sInv hr
  rw [dictGet_of_inv hash _ k hinv.1]
  exact hinv.2.2.2 k

/-- Witness for C9 at a concrete reachable state. -/
theorem C9_witness :
    "a" ∈ (storageSet exHash (storageInit 0) "a" "v" 0).setSortedKeyPtr ↔
      ((dictGet exHash
        (storageSet exHash (storageInit 0) "a" "v" 0).keyValueDictionary
        "a").1).isSome = true :=
  C9_keySet_iff_valueIndex exHash _
    (Reachable.step (Reachable.init 0) (Step.set _ "a" "v" 0)) "a"

/-- Counterexample to C9 as stated: after `Set("k","v",5); Set("k","v",0)`
the latest `set` passed ttl 0, so by the interface contract (ttl 0 =
unbounded lifetime) the key currently has no finite TTL; yet it still
appears in the expiration index (stale deadline 5) and the
expiration-ordered set, and in consequence `Get("k")` at clock 6 even
reports the "permanent" entry as expired. -/
theorem C9_counterexample :
    lookupTtl exHash
        (storageSet exHash (storageSet exHash (storageInit 0) "k" "v" 5)
          "k" "v" 0) "k" = some 5 ∧
    cellsFor
        (storageSet exHash (storageSet exHash (storageInit 0) "k" "v" 5)
          "k" "v" 0) "k" = 1 ∧
    (storageGet exHash
        (tickClock
          (storageSet exHash (storageSet exHash (storageInit 0) "k" "v" 5)
            "k" "v" 0) 6) "k").1 = .ok none :=
  ⟨rfl, rfl, rfl⟩

/-- Claim C10: re-`set`-ting a key whose stored entry is currently expired
(Get returns nothing) but still physically present overwrites it in place:
`Get` immediately returns the new value, the fresh expiration replacing
the stale one for lookup purposes, with no tombstone state. -/
theorem C10_set_revives_expired_key (hash : String → Nat) (s : StorageState)
    (k v : String) (ttl : Nat) (hr : Reachable hash s) (ht : ttl ≠ 0)
    (hPresent : (lookupKV hash s k).isSome = true)
    (hExpired : (storageGet hash s k).1 = .ok none) :
    (storageGet hash (storageSet hash s k v ttl) k).1 = .ok (some v) := by
  have hinv := reachable_sInv hr
  have hinv' := sInv_storageSet hash s k v ttl hinv
  have hTtlAfter : lookupTtl hash (storageSet hash s k v ttl) k =
      some (ttl + s.clock) := by
    rw [lookupTtl_storageSet hash s k k v ttl hinv.2.1, if_pos ⟨ht, rfl⟩]
  have hClockAfter : (storageSet hash s k v ttl).clock = s.clock :=
    clock_storageSet hash s k v ttl
  have hnlt : ¬ (ttl + s.clock < s.clock) := by omega
  have hExp : expiredPure hash (storageSet hash s k v ttl) k = false := by
    simp [expiredPure, hTtlAfter, hClockAfter, hnlt]
  rw [storageGet_of_inv hash _ k hinv']
  show Except.ok (if expiredPure hash (storageSet hash s k v ttl) k = true
    then none else lookupKV hash (storageSet hash s k v ttl) k) = _
  rw [hExp]
  simp only [Bool.false_eq_true, if_false]
  rw [lookupKV_storageSet hash s k k v ttl hinv.1, if_pos rfl]

/-- Witness for C10: key "a" is set with ttl 1 at clock 0, the clock moves
to 5 (so `Get` returns nothing while the entry is still stored), then a
re-`set` with ttl 3 makes `Get` return the new value. -/
theorem C10_witness :
    (lookupKV exHash
        (tickClock (storageSet exHash (storageInit 0) "a" "v0" 1) 5)
        "a").isSome = true ∧
    (storageGet exHash
        (tickClock (storageSet exHash (storageInit 0) "a" "v0" 1) 5)
        "a").1 = .ok none ∧
    (storageGet exHash
        (storageSet exHash
          (tickClock (storageSet exHash (storageInit 0) "a" "v0" 1) 5)
          "a" "v1" 3) "a").1 = .ok (some "v1") :=
  ⟨rfl, rfl,
    C10_set_revives_expired_key exHash
      (tickClock (storageSet exHash (storageInit 0) "a" "v0" 1) 5)
      "a" "v1" 3
      (Reachable.step
        (Reachable.step (Reachable.init 0) (Step.set _ "a" "v0" 1))
        (Step.tick _ 5))
      (by decide) rfl rfl⟩

/-- Claim C2 (amended): after `Set(k, v, 0)`, `Get(k)` returns `v` and
keeps returning it across every further operation that is not a `Set` or
`Remove` of `k` and every clock advance — provided `k` carries no stale
finite-TTL bookkeeping (no expiration-index entry and no
expiration-ordered-set element for `k`).  The unconditional claim is false:
a finite-TTL entry left behind by an earlier `Set(k, ·, t≠0)` is not purged
by `Set(k, v, 0)` and still expires the key (`C2_counterexample`). -/
theorem C2_roundTrip_ttl_zero (hash : String → Nat) (s : StorageState)
    (k v : String) (hr : Reachable hash s)
    (hTtl : lookupTtl hash s k = none)
    (hCells : ∀ c ∈ s.setSortedTtlPtr, c.1 ≠ k) :
    ∀ t : StorageState,
      Relation.ReflTransGen (StepAvoiding hash k) (storageSet hash s k v 0) t →
      (storageGet hash t k).1 = Except.ok (some v) := by
  have hinv := reachable_sInv hr
  have hJ0 : SInv hash (storageSet hash s k v 0) ∧
      lookupKV hash (storageSet hash s k v 0) k = some v ∧
      lookupTtl hash (storageSet hash s k v 0) k = none ∧
      ∀ c ∈ (storageSet hash s k v 0).setSortedTtlPtr, c.1 ≠ k := by
    refine ⟨sInv_storageSet hash s k v 0 hinv, ?_, ?_, ?_⟩
    · rw [lookupKV_storageSet hash s k k v 0 hinv.1, if_pos rfl]
    · rw [lookupTtl_storageSet hash s k k v 0 hinv.2.1,
        if_neg (fun hh => hh.1 rfl)]
      exact hTtl
    · rw [setSortedTtlPtr_storageSet, if_neg (fun hh => hh rfl)]
      exact hCells
  intro t htr
  have hJt : SInv hash t ∧ lookupKV hash t k = some v ∧
      lookupTtl hash t k = none ∧ ∀ c ∈ t.setSortedTtlPtr, c.1 ≠ k := by
    induction htr with
    | refl => exact hJ0
    | tail hsteps hstep ih => exact roundTrip_preserved hash k v hstep ih
  obtain ⟨hinvT, hkvT, httlT, -⟩ := hJt
  rw [storageGet_of_inv hash t k hinvT]
  show Except.ok (if expiredPure hash t k = true then none
    else lookupKV hash t k) = _
  have hexp : expiredPure hash t k = false := by
    simp [expiredPure, httlT]
  rw [hexp]
  simp only [Bool.false_eq_true, if_false]
  rw [hkvT]

/-- Witness for C2 on the empty storage: `Set("k","v",0)` followed by a
clock advance and an unrelated `Set`, after which `Get("k")` still returns
"v". -/
theorem C2_witness :
    (storageGet exHash
      (storageSet exHash
        (tickClock (storageSet exHash (storageInit 0) "k" "v" 0) 7)
        "other" "w" 3)
      "k").1 = Except.ok (some "v") :=
  C2_roundTrip_ttl_zero exHash (storageInit 0) "k" "v" (Reachable.init 0)
    rfl (fun c hc => absurd hc (List.not_mem_nil c)) _
    (Relation.ReflTransGen.tail
      (Relation.ReflTransGen.tail Relation.ReflTransGen.refl
        (StepAvoiding.tick _ 7))
      (StepAvoiding.set _ "other" "w" 3 (by decide)))

/-- Counterexample to C2 as stated: `Set("k","v1",5)` at clock 0, then
`Set("k","v2",0)` — by the claim `Get("k")` should now return "v2" until a
further `Set`/`Remove` of "k", for every later clock reading; but at clock
6 the stale expiration entry (deadline 5) left in the expiration index by
the first `set` makes `Get("k")` return nothing. -/
theorem C2_counterexample :
    (storageGet exHash
      (tickClock
        (storageSet exHash (storageSet exHash (storageInit 0) "k" "v1" 5)
          "k" "v2" 0) 6)
      "k").1 = Except.ok none :=
  rfl

/-- Claim C4 (amended): `Set(k, v, t)` with `t > 0` at clock `T0` makes
`Get(k)` return `v` for every clock reading up to and including `T0 + t`,
and nothing strictly after `T0 + t`: expiry is strict (`expiration < now`),
so at the exact deadline the value is still served — the original claim's
boundary ("nothing at `T0 + t` or later") is off by one
(`C4_counterexample`). -/
theorem C4_ttl_expiry_strict (hash : String → Nat) (s : StorageState)
    (k v : String) (ttl n : Nat) (hr : Reachable hash s) (ht : 0 < ttl) :
    (storageGet hash (tickClock (storageSet hash s k v ttl) n) k).1 =
      .ok (if n ≤ ttl then some v else none) := by
  have hinv := reachable_sInv hr
  have ht' : ttl ≠ 0 := Nat.pos_iff_ne_zero.mp ht
  have hinv1 := sInv_storageSet hash s k v ttl hinv
  have hinv2 := sInv_tick hash _ n hinv1
  have hTtl : lookupTtl hash (tickClock (storageSet hash s k v ttl) n) k =
      some (ttl + s.clock) := by
    rw [lookupTtl_tick, lookupTtl_storageSet hash s k k v ttl hinv.2.1,
      if_pos ⟨ht', rfl⟩]
  have hKV : lookupKV hash (tickClock (storageSet hash s k v ttl) n) k =
      some v := by
    rw [lookupKV_tick, lookupKV_storageSet hash s k k v ttl hinv.1, if_pos rfl]
  have hClock : (tickClock (storageSet hash s k v ttl) n).clock =
      s.clock + n := by
    show (storageSet hash s k v ttl).clock + n = s.clock + n
    rw [clock_storageSet]
  rw [storageGet_of_inv hash _ k hinv2]
  show Except.ok (if expiredPure hash (tickClock (storageSet hash s k v ttl) n) k = true
    then none else lookupKV hash (tickClock (storageSet hash s k v ttl) n) k) = _
  have hcase : (if expiredPure hash (tickClock (storageSet hash s k v ttl) n) k = true
      then none else lookupKV hash (tickClock (storageSet hash s k v ttl) n) k) =
      (if n ≤ ttl then some v else none) := by
    by_cases hn : n ≤ ttl
    · have h1 : ¬ (ttl + s.clock < s.clock + n) := by omega
      simp [expiredPure, hTtl, hClock, h1, hn, hKV]
    · have h1 : ttl + s.clock < s.clock + n := by omega
      simp [expiredPure, hTtl, hClock, h1, hn]
  rw [hcase]

/-- Witness for C4: "key1" set with ttl 5 at clock 0; at clock 6 the
amended statement yields nothing. -/
theorem C4_witness :
    (storageGet exHash
      (tickClock (storageSet exHash (storageInit 0) "key1" "value1" 5) 6)
      "key1").1 = .ok (if 6 ≤ 5 then some "value1" else none) :=
  C4_ttl_expiry_strict exHash (storageInit 0) "key1" "value1" 5 6
    (Reachable.init 0) (by decide)

/-- Counterexample to C4 as stated: with `Set("key1","value1",5)` at
`T0 = 0`, the claim demands that `Get` return nothing once the clock reads
`T0 + t = 5`; the code's expiry comparison is strict (`ttl < now`), so at
clock exactly 5 the value is still returned. -/
theorem C4_counterexample :
    (storageGet exHash
      (tickClock (storageSet exHash (storageInit 0) "key1" "value1" 5) 5)
      "key1").1 = Except.ok (some "value1") ∧
    (storageGet exHash
      (tickClock (storageSet exHash (storageInit 0) "key1" "value1" 5) 5)
      "key1").1 ≠ Except.ok none :=
  ⟨rfl, fun h => Option.noConfusion (Except.ok.inj h)⟩

theorem fillFactorLtLow_iff {Key Value : Type} (d : DictState Key Value)
    (hpos : 0 < d.dict.length) :
    fillFactorLtLow d = true ↔
      (d.used : ℚ) / (d.dict.length : ℚ) <
        (LOW_LIMIT_NUM : ℚ) / (LOW_LIMIT_DEN : ℚ) := by
  have hlen : (0 : ℚ) < (d.dict.length : ℚ) := by exact_mod_cast hpos
  have hden : (0 : ℚ) < (LOW_LIMIT_DEN : ℚ) := by norm_num [LOW_LIMIT_DEN]
  rw [fillFactorLtLow, decide_eq_true_eq, div_lt_div_iff hlen hden]
  constructor
  · intro h
    exact_mod_cast h
  · intro h
    exact_mod_cast h

theorem fillFactorGtHigh_iff {Key Value : Type} (d : DictState Key Value)
    (hpos : 0 < d.dict.length) :
    fillFactorGtHigh d = true ↔
      (HIGH_LIMIT_NUM : ℚ) / (HIGH_LIMIT_DEN : ℚ) <
        (d.used : ℚ) / (d.dict.length : ℚ) := by
  have hlen : (0 : ℚ) < (d.dict.length : ℚ) := by exact_mod_cast hpos
  have hden : (0 : ℚ) < (HIGH_LIMIT_DEN : ℚ) := by norm_num [HIGH_LIMIT_DEN]
  rw [fillFactorGtHigh, decide_eq_true_eq, div_lt_div_iff hden hlen]
  constructor
  · intro h
    exact_mod_cast h
  · intro h
    exact_mod_cast h

/-- Claim C6 (amended): a rehash is scheduled exactly when the capacity
exceeds the base capacity 8 AND the table is nonempty (`used ≠ 0` — a
condition the original claim omits, see `C6_counterexample`) AND the fill
factor `used/capacity` leaves the band `[0.01f, 1.2f]` (the float
constants, exactly `10737418/2^30` and `10066330/2^23`); below the low
bound the prepared capacity is half the old, above the high bound double;
and no rehash is ever scheduled at or below the base capacity. -/
theorem C6_rehash_scheduling {Key Value : Type} (d : DictState Key Value) :
    (isNeedRehash d = true ↔
      (BASIC_DICTIONARY_SIZE < d.dict.length ∧ d.used ≠ 0 ∧
        ((d.used : ℚ) / (d.dict.length : ℚ) <
            (LOW_LIMIT_NUM : ℚ) / (LOW_LIMIT_DEN : ℚ) ∨
          (HIGH_LIMIT_NUM : ℚ) / (HIGH_LIMIT_DEN : ℚ) <
            (d.used : ℚ) / (d.dict.length : ℚ)))) ∧
    (d.dict.length ≤ BASIC_DICTIONARY_SIZE → isNeedRehash d = false) ∧
    (isNeedRehash d = true →
      ((prepareRehash d).alt.length =
        if (d.used : ℚ) / (d.dict.length : ℚ) <
            (LOW_LIMIT_NUM : ℚ) / (LOW_LIMIT_DEN : ℚ)
        then d.dict.length / 2 else d.dict.length * 2) ∧
      (prepareRehash d).rehashIndex = some 0) := by
  have hmain : isNeedRehash d = true ↔
      (BASIC_DICTIONARY_SIZE < d.dict.length ∧ d.used ≠ 0 ∧
        (fillFactorLtLow d = true ∨ fillFactorGtHigh d = true)) := by
    rw [isNeedRehash]
    simp [Bool.and_eq_true, Bool.or_eq_true, decide_eq_true_eq, bne_iff_ne,
      and_assoc]
  refine ⟨?_, isNeedRehash_of_base d, ?_⟩
  · rw [hmain]
    constructor
    · rintro ⟨h1, h2, h3⟩
      have hpos : 0 < d.dict.length :=
        lt_trans (by norm_num [BASIC_DICTIONARY_SIZE]) h1
      refine ⟨h1, h2, ?_⟩
      rcases h3 with h3 | h3
      · exact Or.inl ((fillFactorLtLow_iff d hpos).mp h3)
      · exact Or.inr ((fillFactorGtHigh_iff d hpos).mp h3)
    · rintro ⟨h1, h2, h3⟩
      have hpos : 0 < d.dict.length :=
        lt_trans (by norm_num [BASIC_DICTIONARY_SIZE]) h1
      refine ⟨h1, h2, ?_⟩
      rcases h3 with h3 | h3
      · exact Or.inl ((fillFactorLtLow_iff d hpos).mpr h3)
      · exact Or.inr ((fillFactorGtHigh_iff d hpos).mpr h3)
  · intro hneed
    have h1 : BASIC_DICTIONARY_SIZE < d.dict.length := (hmain.mp hneed).1
    have hpos : 0 < d.dict.length :=
      lt_trans (by norm_num [BASIC_DICTIONARY_SIZE]) h1
    constructor
    · show (List.replicate
        (if fillFactorLtLow d then d.dict.length / 2 else d.dict.length * 2)
        ([] : List (Key × Value))).length = _
      rw [List.length_replicate]
      by_cases hlow : fillFactorLtLow d = true
      · rw [if_pos hlow, if_pos ((fillFactorLtLow_iff d hpos).mp hlow)]
      · rw [if_neg hlow,
          if_neg (fun hq => hlow ((fillFactorLtLow_iff d hpos).mpr hq))]
    · rfl

/-- Witness for C6: the base-capacity table never schedules a rehash. -/
theorem C6_witness : isNeedRehash (dictMk 4 : DictState Nat Nat) = false :=
  (C6_rehash_scheduling (dictMk 4 : DictState Nat Nat)).2.1 (by decide)

/-- Counterexample to C6 as stated: a freshly constructed `Dictionary(16)`
(reachable, the constructor takes the capacity) has capacity 16 > 8 and
fill factor 0, which lies outside the claimed band [0.01, 1.2]; the claim
therefore demands that a rehash be scheduled, but `isNeedRehash` also
requires `used != 0` and answers false. -/
theorem C6_counterexample :
    isNeedRehash (dictMk 16 : DictState Nat Nat) = false ∧
    BASIC_DICTIONARY_SIZE < (dictMk 16 : DictState Nat Nat).dict.length ∧
    ((dictMk 16 : DictState Nat Nat).used : ℚ) /
        ((dictMk 16 : DictState Nat Nat).dict.length : ℚ) <
      1 / 100 := by
  refine ⟨rfl, by decide, ?_⟩
  show ((0 : Nat) : ℚ) / ((List.replicate 16 ([] : List (Nat × Nat))).length : ℚ)
    < 1 / 100
  norm_num

/-- Claim C5 (code-bug evaluation): keys 0..19 are inserted into a
`Dictionary(16)` (identity hash) and never removed; key 0 is still stored
in the primary bucket array, yet the very next public `get` — which first
runs the triggered growth rehash, and `rehash()` deletes every unmigrated
primary chain instead of transferring it — answers `none` for every one of
the 20 keys, leaving a capacity-32 table whose bucket array is empty while
`_dictionaryUsed` still claims 20 entries. -/
theorem C5_rehash_data_loss :
    dictGetRaw (fun x => x) overfullDict.dict 0 = some 0 ∧
    (dictGet (fun x => x) overfullDict 0).1 = none ∧
    (dictGet (fun x => x) overfullDict 19).1 = none ∧
    (dictGet (fun x => x) overfullDict 0).2.dict.length = 32 ∧
    (dictGet (fun x => x) overfullDict 0).2.used = 20 := by
  refine ⟨?_, ?_, ?_, ?_, ?_⟩ <;> (set_option maxRecDepth 4000 in decide)

/-- Claim C8 (amended): `remove(k)` on a reachable state returns false and
leaves the state unchanged when `k` is absent from the value index; when
`k` is present it returns true, deletes `k` from the value index, the
key-ordered set and the expiration index, and removes ONE matching element
from the expiration-ordered set (`countP` drops by one when positive —
repeated finite-TTL `set` calls can leave further stale elements behind,
see `C8_counterexample`); a second `remove(k)` immediately after returns
false. -/
theorem C8_remove_semantics (hash : String → Nat) (s : StorageState)
    (k : String) (hr : Reachable hash s) :
    (lookupKV hash s k = none → storageRemove hash s k = (false, s)) ∧
    ((lookupKV hash s k).isSome = true →
      (storageRemove hash s k).1 = true ∧
      lookupKV hash (storageRemove hash s k).2 k = none ∧
      k ∉ (storageRemove hash s k).2.setSortedKeyPtr ∧
      lookupTtl hash (storageRemove hash s k).2 k = none ∧
      cellsFor (storageRemove hash s k).2 k =
        cellsFor s k - min 1 (cellsFor s k) ∧
      (storageRemove hash (storageRemove hash s k).2 k).1 = false) := by
  have hinv := reachable_sInv hr
  constructor
  · intro hlk
    exact storageRemove_absent hash s k hinv.1 hlk
  · intro hlk
    have hpres := storageRemove_present hash s k hinv.1 hlk
    have hinv' := sInv_storageRemove hash s k hinv
    have hkvAfter := lookupKV_storageRemove_self hash s k hinv.1
    have hnd : s.setSortedKeyPtr.Nodup := hinv.2.2.1.imp ne_of_lt
    refine ⟨by rw [hpres], hkvAfter, ?_,
      lookupTtl_storageRemove_self hash s k hinv.1 hinv.2.1 hlk, ?_, ?_⟩
    · rw [hpres]
      show k ∉ s.setSortedKeyPtr.erase k
      intro hmem
      exact ((hnd.mem_erase_iff).mp hmem).1 rfl
    · rw [hpres]
      show (s.setSortedTtlPtr.eraseP (fun c => c.1 == k)).countP
        (fun c => c.1 == k) = _
      exact countP_eraseP _ _
    · rw [storageRemove_absent hash _ k hinv'.1 hkvAfter]

/-- Witness for C8: removing an absent key from the empty storage returns
false and leaves the state unchanged; removing a present finite-TTL key
returns true. -/
theorem C8_witness :
    storageRemove exHash (storageInit 0) "k" = (false, storageInit 0) ∧
    (storageRemove exHash (storageSet exHash (storageInit 0) "x" "v" 5)
      "x").1 = true :=
  ⟨(C8_remove_semantics exHash (storageInit 0) "k" (Reachable.init 0)).1 rfl,
    ((C8_remove_semantics exHash (storageSet exHash (storageInit 0) "x" "v" 5)
      "x" (Reachable.step (Reachable.init 0) (Step.set _ "x" "v" 5))).2
      rfl).1⟩

/-- Counterexample to C8 as stated: after `Set("x","v",5); Set("x","v",7)`
the expiration-ordered set holds two elements for "x" (every finite-TTL
`set` inserts a fresh pointer pair); `Remove("x")` returns true but erases
only the first matching element, so "x" still appears in the
expiration-ordered set afterwards, contradicting "deletes k from ... the
expiration-ordered set". -/
theorem C8_counterexample :
    (storageRemove exHash
      (storageSet exHash (storageSet exHash (storageInit 0) "x" "v" 5)
        "x" "v" 7) "x").1 = true ∧
    (storageRemove exHash
      (storageSet exHash (storageSet exHash (storageInit 0) "x" "v" 5)
        "x" "v" 7) "x").2.setSortedTtlPtr = [("x", 7)] :=
  ⟨rfl, rfl⟩

theorem removeOne_duplicate_throws (hash : String → Nat) {s : StorageState}
    {k v : String} {e1 e2 : Nat}
    (hr : Reachable hash s)
    (hcells : s.setSortedTtlPtr = [(k, e1), (k, e2)])
    (he1 : e1 < s.clock) (he2 : e2 < s.clock)
    (hlk : lookupKV hash s k = some v) :
    (storageRemoveOneExpiredEntry hash s).1 = .ok (some (k, v)) ∧
    (storageRemoveOneExpiredEntry hash
      (storageRemoveOneExpiredEntry hash s).2).1 = .error () := by
  have hinv := reachable_sInv hr
  have hfirst := removeOne_ok_of hash hinv hcells he1 hlk
  have hsome : (lookupKV hash s k).isSome = true := by rw [hlk]; rfl
  have hpres := storageRemove_present hash s k hinv.1 hsome
  have hinv4 := sInv_storageRemove hash s k hinv
  have hkv4 := lookupKV_storageRemove_self hash s k hinv.1
  have hcell4 : (storageRemove hash s k).2.setSortedTtlPtr = [(k, e2)] := by
    rw [hpres]
    show s.setSortedTtlPtr.eraseP (fun c => c.1 == k) = [(k, e2)]
    rw [hcells]
    rw [List.eraseP_cons_of_pos (by simp)]
  have hck4 : (storageRemove hash s k).2.clock = s.clock := by
    rw [hpres]
  have hsecond := removeOne_error_of hash hinv4 hcell4
    (by rw [hck4]; exact he2) hkv4
  constructor
  · rw [hfirst]
  · rw [hfirst]
    show (storageRemoveOneExpiredEntry hash (storageRemove hash s k).2).1 = _
    rw [hsecond]

/-- Claim C1 (code-bug evaluation): drain is broken by stale duplicate
expiration-set elements.  After `Set("x","v1",5); Set("x","v2",7)` the
expiration-ordered set holds two elements for "x"; with the clock at 10
(past all TTLs) the first `removeOneExpiredEntry` returns ("x","v2") and
removes only one of them, and the second call — which by the claim must
return nothing — instead hits the leftover element, finds the key gone
from the value index, and throws `std::bad_optional_access` (the
`.error ()` case), for every hash function the dictionaries could use.
(The "always finds an expired entry" half of the claim is independently
unsound because the expiration set is ordered by `shared_ptr` addresses,
not by expiration time; see the spec-vs-source note in RESULTS.) -/
theorem C1_removeOneExpired_drain_throws (hash : String → Nat) :
    (storageRemoveOneExpiredEntry hash
      (tickClock (storageSet hash
        (storageSet hash (storageInit 0) "x" "v1" 5) "x" "v2" 7) 10)).1 =
      .ok (some ("x", "v2")) ∧
    (storageRemoveOneExpiredEntry hash
      (storageRemoveOneExpiredEntry hash
        (tickClock (storageSet hash
          (storageSet hash (storageInit 0) "x" "v1" 5) "x" "v2" 7) 10)).2).1 =
      .error () := by
  have hr1 : Reachable hash (storageSet hash (storageInit 0) "x" "v1" 5) :=
    Reachable.step (Reachable.init 0) (Step.set _ "x" "v1" 5)
  have hr2 : Reachable hash
      (storageSet hash (storageSet hash (storageInit 0) "x" "v1" 5)
        "x" "v2" 7) :=
    Reachable.step hr1 (Step.set _ "x" "v2" 7)
  have hr3 : Reachable hash
      (tickClock (storageSet hash
        (storageSet hash (storageInit 0) "x" "v1" 5) "x" "v2" 7) 10) :=
    Reachable.step hr2 (Step.tick _ 10)
  have hinv1 := reachable_sInv hr1
  have hck1 : (storageSet hash (storageInit 0) "x" "v1" 5).clock = 0 :=
    clock_storageSet hash (storageInit 0) "x" "v1" 5
  have hcell1 : (storageSet hash (storageInit 0) "x" "v1" 5).setSortedTtlPtr =
      [("x", 5)] := by
    rw [setSortedTtlPtr_storageSet, if_pos (by decide)]
    rfl
  have hcell2 : (storageSet hash
      (storageSet hash (storageInit 0) "x" "v1" 5)
      "x" "v2" 7).setSortedTtlPtr = [("x", 5), ("x", 7)] := by
    rw [setSortedTtlPtr_storageSet, if_pos (by decide), hcell1, hck1]
    rfl
  have hck2 : (storageSet hash
      (storageSet hash (storageInit 0) "x" "v1" 5) "x" "v2" 7).clock = 0 :=
    (clock_storageSet hash _ "x" "v2" 7).trans hck1
  have hck3 : (tickClock (storageSet hash
      (storageSet hash (storageInit 0) "x" "v1" 5) "x" "v2" 7) 10).clock =
      10 := by
    show (storageSet hash
      (storageSet hash (storageInit 0) "x" "v1" 5) "x" "v2" 7).clock + 10 = 10
    rw [hck2]
  have hkv3 : lookupKV hash
      (tickClock (storageSet hash
        (storageSet hash (storageInit 0) "x" "v1" 5) "x" "v2" 7) 10) "x" =
      some "v2" := by
    rw [lookupKV_tick, lookupKV_storageSet hash _ "x" "x" "v2" 7 hinv1.1,
      if_pos rfl]
  exact removeOne_duplicate_throws hash hr3 hcell2
    (by rw [hck3]; decide) (by rw [hck3]; decide) hkv3

/-- Claim C3 (code-bug evaluation): the engine can throw.  After
`Set("x","v",1); Set("x","v",2); Remove("x")` one stale element for "x" is
left in the expiration-ordered set (the `remove` erased only the first
match); at clock 5 `removeOneExpiredEntry` inspects it, finds "x" absent
from the value index, and `_keyValueDictionary.get(key).value()` throws
`std::bad_optional_access` (the `.error ()` case) instead of reporting
absence through an empty optional — for every hash function. -/
theorem C3_removeOneExpired_throws (hash : String → Nat) :
    (storageRemoveOneExpiredEntry hash
      (tickClock
        (storageRemove hash
          (storageSet hash (storageSet hash (storageInit 0) "x" "v" 1)
            "x" "v" 2) "x").2 5)).1 = .error () := by
  have hr1 : Reachable hash (storageSet hash (storageInit 0) "x" "v" 1) :=
    Reachable.step (Reachable.init 0) (Step.set _ "x" "v" 1)
  have hr2 : Reachable hash
      (storageSet hash (storageSet hash (storageInit 0) "x" "v" 1)
        "x" "v" 2) :=
    Reachable.step hr1 (Step.set _ "x" "v" 2)
  have hinv1 := reachable_sInv hr1
  have hinv2 := reachable_sInv hr2
  have hck1 : (storageSet hash (storageInit 0) "x" "v" 1).clock = 0 :=
    clock_storageSet hash (storageInit 0) "x" "v" 1
  have hcell1 : (storageSet hash (storageInit 0) "x" "v" 1).setSortedTtlPtr =
      [("x", 1)] := by
    rw [setSortedTtlPtr_storageSet, if_pos (by decide)]
    rfl
  have hcell2 : (storageSet hash
      (storageSet hash (storageInit 0) "x" "v" 1)
      "x" "v" 2).setSortedTtlPtr = [("x", 1), ("x", 2)] := by
    rw [setSortedTtlPtr_storageSet, if_pos (by decide), hcell1, hck1]
    rfl
  have hck2 : (storageSet hash
      (storageSet hash (storageInit 0) "x" "v" 1) "x" "v" 2).clock = 0 :=
    (clock_storageSet hash _ "x" "v" 2).trans hck1
  have hkv2 : lookupKV hash
      (storageSet hash (storageSet hash (storageInit 0) "x" "v" 1)
        "x" "v" 2) "x" = some "v" := by
    rw [lookupKV_storageSet hash _ "x" "x" "v" 2 hinv1.1, if_pos rfl]
  have hsome2 : (lookupKV hash
      (storageSet hash (storageSet hash (storageInit 0) "x" "v" 1)
        "x" "v" 2) "x").isSome = true := by rw [hkv2]; rfl
  have hpres := storageRemove_present hash _ "x" hinv2.1 hsome2
  have hinv3 := sInv_storageRemove hash _ "x" hinv2
  have hkv3 := lookupKV_storageRemove_self hash _ "x" hinv2.1
  have hcell3 : (storageRemove hash
      (storageSet hash (storageSet hash (storageInit 0) "x" "v" 1)
        "x" "v" 2) "x").2.setSortedTtlPtr = [("x", 2)] := by
    rw [hpres]
    show (storageSet hash (storageSet hash (storageInit 0) "x" "v" 1)
      "x" "v" 2).setSortedTtlPtr.eraseP (fun c => c.1 == "x") = [("x", 2)]
    rw [hcell2]
    rw [List.eraseP_cons_of_pos (by simp)]
  have hck3 : (storageRemove hash
      (storageSet hash (storageSet hash (storageInit 0) "x" "v" 1)
        "x" "v" 2) "x").2.clock = 0 := by
    rw [hpres]
    exact hck2
  have hinv4 : SInv hash (tickClock
      (storageRemove hash
        (storageSet hash (storageSet hash (storageInit 0) "x" "v" 1)
          "x" "v" 2) "x").2 5) :=
    sInv_tick hash _ 5 hinv3
  have hck4 : (tickClock
      (storageRemove hash
        (storageSet hash (storageSet hash (storageInit 0) "x" "v" 1)
          "x" "v" 2) "x").2 5).clock = 5 := by
    show (storageRemove hash
      (storageSet hash (storageSet hash (storageInit 0) "x" "v" 1)
        "x" "v" 2) "x").2.clock + 5 = 5
    rw [hck3]
  have herr := removeOne_error_of hash hinv4 hcell3
    (by rw [hck4]; decide) hkv3
  rw [herr]

end KVS
